/-
Verification of the chat-txt2pdf normalization and incremental-export
pipeline (sources: convert_all_chat.py, export-txt2pdf.py, export-txt2pdf2.py).

The Python code is shallowly embedded: dicts become association lists over a
JSON value type, strings become Lean strings (reasoned about via their
character lists), and the stateful drivers become explicit functions from
their inputs (prior state, directory scan, file contents) to the effects they
perform (what is rendered, what state is written).
-/
import Mathlib

namespace ChatTxt2Pdf

/-! ## Character-list utilities (models of Python string primitives) -/

/-- Model of pattern matching at the start of a character list:
true when the first argument is an initial segment of the second.
This models Python str.startswith. -/
def hasLead : List Char → List Char → Bool
  | [], _ => true
  | _ :: _, [] => false
  | a :: as, b :: bs => a = b && hasLead as bs

/-- Model of Python str.replace(p, q): scan left to right, replacing each
non-overlapping occurrence of p by q.  (Python treats an empty pattern
specially; the sources only replace non-empty patterns, and this model
leaves the string unchanged for an empty pattern.) -/
def replaceL (p q : List Char) : List Char → List Char
  | [] => []
  | c :: rest =>
    if h : p ≠ [] ∧ hasLead p (c :: rest) then
      q ++ replaceL p q ((c :: rest).drop p.length)
    else
      c :: replaceL p q rest
termination_by s => s.length
decreasing_by
  · have hp : 0 < p.length := List.length_pos.mpr h.1
    simp only [List.length_drop, List.length_cons]
    omega
  · simp

/-- No occurrence of the two-character pattern a,b anywhere in the list. -/
def NoPair (a b : Char) (l : List Char) : Prop :=
  l.Chain' (fun x y => ¬(x = a ∧ y = b))

/-- The four-space replacement Python writes for tabs. -/
def sp4 : List Char := [' ', ' ', ' ', ' ']

/-! ## normalize_content (export-txt2pdf.py lines 192-212, export-txt2pdf2.py
lines 112-125; both scripts contain the identical chain of replacements). -/

/-- The seven str.replace calls of normalize_content, on character lists,
in exactly the source order. -/
def normData (s : List Char) : List Char :=
  replaceL ['\t'] sp4
    (replaceL ['\\', 't'] sp4
      (replaceL ['\\', 'r'] ['\n']
        (replaceL ['\\', 'n'] ['\n']
          (replaceL ['\\', 'r', '\\', 'n'] ['\n']
            (replaceL ['\r'] ['\n']
              (replaceL ['\r', '\n'] ['\n'] s))))))

/-- Embedding of normalize_content: unify real newlines, rewrite the literal
two-character escapes backslash-n / backslash-r / backslash-t, and turn tabs
into four spaces. -/
def normalize_content (raw : String) : String :=
  String.mk (normData raw.data)

/-- Model of Python s.startswith(pre). -/
def pyStartsWith (s pre : String) : Bool := hasLead pre.data s.data

/-- Model of Python s.endswith(suf). -/
def pyEndsWith (s suf : String) : Bool :=
  hasLead suf.data.reverse s.data.reverse

/-- The decimal digit character for n < 10. -/
def digitChar (n : Nat) : Char := Char.ofNat (48 + n)

/-- Fuel-driven helper for decimal digit lists (structural recursion so that
it evaluates by reduction; the fuel is always sufficient when it exceeds the
number). -/
def natDigitsAux : Nat → Nat → List Char
  | 0, _ => []
  | fuel + 1, n =>
    if n < 10 then [digitChar n]
    else natDigitsAux fuel (n / 10) ++ [digitChar (n % 10)]

/-- Decimal digits of a natural number, most significant first (the digits
Python's str(n) / an f-string produces). -/
def natDigits (n : Nat) : List Char := natDigitsAux (n + 1) n

/-- Decimal rendering of a natural number, as Python str(n). -/
def natRepr (n : Nat) : String := String.mk (natDigits n)

/-- Numeric value of a list of decimal digit characters (the int() of the
digit run captured by the regex in get_dated_pdf_name). -/
def digitsVal (l : List Char) : Nat :=
  l.foldl (fun a c => a * 10 + (c.toNat - 48)) 0

/-! ## Export driver (export-txt2pdf2.py), change tracking and naming -/

/-- Code-point lexicographic comparison of character lists: the order Python
uses to compare strings. -/
def lexLe : List Char → List Char → Bool
  | [], _ => true
  | _ :: _, [] => false
  | a :: as, b :: bs => if a = b then lexLe as bs else decide (a < b)

/-- Python string comparison a <= b. -/
def strLe (a b : String) : Prop := lexLe a.data b.data = true

instance : DecidableRel strLe := fun a b => by unfold strLe; infer_instance

instance : IsTotal String strLe where
  total := by
    intro a b
    unfold strLe
    generalize a.data = x
    generalize b.data = y
    induction x generalizing y with
    | nil => left; rfl
    | cons c cs ih =>
      cases y with
      | nil => right; rfl
      | cons d ds =>
        by_cases hcd : c = d
        · subst hcd
          simpa [lexLe] using ih ds
        · rcases lt_or_gt_of_ne hcd with h | h
          · left; simp [lexLe, hcd, h]
          · right; simp [lexLe, Ne.symm hcd, h]

instance : IsTrans String strLe where
  trans := by
    intro a b c
    unfold strLe
    generalize a.data = x
    generalize b.data = y
    generalize c.data = z
    induction x generalizing y z with
    | nil => intro _ _; rfl
    | cons p ps ih =>
      intro hxy hyz
      cases y with
      | nil => simp [lexLe] at hxy
      | cons q qs =>
        cases z with
        | nil => simp [lexLe] at hyz
        | cons r rs =>
          simp only [lexLe] at hxy hyz ⊢
          by_cases hpq : p = q
          · subst hpq
            by_cases hqr : p = r
            · subst hqr
              simp only [if_pos rfl] at hxy hyz ⊢
              exact ih qs rs hxy hyz
            · rw [if_neg hqr] at hyz ⊢
              exact hyz
          · by_cases hqr : q = r
            · subst hqr
              rw [if_neg hpq] at hxy ⊢
              exact hxy
            · rw [if_neg hpq] at hxy
              rw [if_neg hqr] at hyz
              simp only [decide_eq_true_eq] at hxy hyz
              rw [if_neg (by intro h; subst h; exact absurd hyz (lt_asymm hxy))]
              simp [lt_trans hxy hyz]

instance : IsAntisymm String strLe where
  antisymm := by
    have key : ∀ x y : List Char, lexLe x y = true → lexLe y x = true →
        x = y := by
      intro x
      induction x with
      | nil =>
        intro y _ hyx
        cases y with
        | nil => rfl
        | cons d ds => simp [lexLe] at hyx
      | cons c cs ih =>
        intro y hxy hyx
        cases y with
        | nil => simp [lexLe] at hxy
        | cons d ds =>
          simp only [lexLe] at hxy hyx
          by_cases hcd : c = d
          · subst hcd
            rw [if_pos rfl] at hxy hyx
            rw [ih ds hxy hyx]
          · rw [if_neg hcd] at hxy
            rw [if_neg (Ne.symm hcd)] at hyx
            simp only [decide_eq_true_eq] at hxy hyx
            exact absurd hyx (lt_asymm hxy)
    intro a b hab hba
    have hd := key a.data b.data hab hba
    cases a; cases b
    exact congrArg String.mk hd

/-- Python sorted() on a list of strings. -/
def sortStrings (l : List String) : List String :=
  List.insertionSort strLe l

/-- Embedding of find_all_txt_files: the relative paths produced by the
directory walk (given here as the input list), kept when their lowercased
name ends with ".txt", sorted. -/
def find_all_txt_files (names : List String) : List String :=
  sortStrings (names.filter (fun n => pyEndsWith n.toLower ".txt"))

/-- Embedding of main (export-txt2pdf2.py lines 295-306): the incremental
ExportBatch.  old is the persisted ChangeSet (relative path to digest),
scan the current sorted list of txt paths, and digest the content hash of
each current file (new_state[p] = hash_file(p)).  new_paths are scanned
paths missing from the old state, changed_paths those present with a
different digest; the batch is sorted(set(new_paths + changed_paths)). -/
def computeBatch (old : List (String × String)) (scan : List String)
    (digest : String → String) : List String :=
  sortStrings
    ((scan.filter (fun p => (List.lookup p old).isNone) ++
      scan.filter (fun p =>
        match List.lookup p old with
        | some d => d != digest p
        | none => false)).dedup)

/-- Embedding of the effectful tail of main (export-txt2pdf2.py lines
306-323): if the batch is empty the run returns early, rendering nothing and
writing no state (modelled by none); otherwise it renders exactly the batch
and then persists the freshly computed state (modelled by some of the pair). -/
def mainRun (old : List (String × String)) (scan : List String)
    (digest : String → String) :
    Option (List String × List (String × String)) :=
  let newState := scan.map (fun p => (p, digest p))
  let batch := computeBatch old scan digest
  if batch = [] then none
  else some (batch, newState)

/-- List drop from the right (the -4 end of the Python slice name[len(base):-4]). -/
def listDropRight (l : List Char) (n : Nat) : List Char := l.take (l.length - n)

/-- The numeric index the source parses out of one candidate file name:
s = name[len(base):-4]; empty s or s not matching the regex underscore plus
digits counts as 1, otherwise the captured digit run's value.
(get_dated_pdf_name, export-txt2pdf2.py lines 141-150 and
export-txt2pdf.py lines 172-184.) -/
def suffixIdx (base name : String) : Nat :=
  match listDropRight (name.data.drop base.data.length) 4 with
  | [] => 1
  | c :: rest =>
    if c = '_' then
      if rest.takeWhile Char.isDigit = [] then 1
      else digitsVal (rest.takeWhile Char.isDigit)
    else 1

/-- The maximum suffix index over the same-day candidates, starting from 1
(the source's max_idx loop). -/
def maxSuffixIdx (base : String) (candidates : List String) : Nat :=
  candidates.foldl (fun acc name => max acc (suffixIdx base name)) 1

/-- The same-day artifacts: directory entries that start with
prefix_YYYYMMDD and end with ".pdf". -/
def candidatesOf (pre today : String) (files : List String) : List String :=
  files.filter (fun f =>
    pyStartsWith f (pre ++ "_" ++ today) && pyEndsWith f ".pdf")

/-- Embedding of get_dated_pdf_name (identical in both export scripts):
pre is the PDF prefix, today the formatted date, files the directory
listing. -/
def get_dated_pdf_name (pre today : String) (files : List String) : String :=
  let base := pre ++ "_" ++ today
  let candidates := candidatesOf pre today files
  if candidates = [] then base ++ ".pdf"
  else if (base ++ ".pdf") ∈ candidates then
    base ++ "_" ++ natRepr (maxSuffixIdx base candidates + 1) ++ ".pdf"
  else
    base ++ ".pdf"

/-! ## Python string helpers for the converter -/

/-- The whitespace characters Python str.strip() removes (the str.isspace
set). -/
def isPySpace (c : Char) : Bool :=
  c = ' ' || c = '\t' || c = '\n' || c = '\r' || c = '\x0b' || c = '\x0c' ||
  c = '\x1c' || c = '\x1d' || c = '\x1e' || c = '\x1f' || c = '\x85' ||
  c = '\xa0' || c = '\u1680' || ('\u2000' ≤ c && c ≤ '\u200a') ||
  c = '\u2028' || c = '\u2029' || c = '\u202f' || c = '\u205f' ||
  c = '\u3000'

/-- Python str.strip() on a character list. -/
def pyStripL (l : List Char) : List Char :=
  ((l.dropWhile isPySpace).reverse.dropWhile isPySpace).reverse

/-- Python str.strip(). -/
def pyStrip (s : String) : String := String.mk (pyStripL s.data)

/-- Python str.lower() (ASCII case mapping, which is what the sources rely
on when comparing roles to "user"). -/
def pyLower (s : String) : String := String.mk (s.data.map Char.toLower)

/-- Python str.upper() (ASCII case mapping, used when rendering speaker
labels). -/
def pyUpper (s : String) : String := String.mk (s.data.map Char.toUpper)

/-! ## JSON values (the parsed objects the converter manipulates) -/

/-- A parsed JSON document: Python's None/bool/number/str/list/dict as
json.loads produces them.  Dicts are association lists in insertion order
with unique keys (setField below keeps the Python dict semantics). -/
inductive JVal where
  | null
  | bool (b : Bool)
  | num (n : Int)
  | str (s : String)
  | arr (items : List JVal)
  | obj (fields : List (String × JVal))

/-- Python dict .get(k) on a parsed object. -/
def jget (fields : List (String × JVal)) (k : String) : Option JVal :=
  List.lookup k fields

/-- Python dict d[k] = v: replaces the value in place if the key is present
(keeping its position), appends otherwise. -/
def setField : List (String × JVal) → String → JVal → List (String × JVal)
  | [], k, v => [(k, v)]
  | (k', v') :: rest, k, v =>
    if k' = k then (k, v) :: rest else (k', v') :: setField rest k v

/-- Python truthiness of a parsed JSON value. -/
def pyTruthy : JVal → Bool
  | .null => false
  | .bool b => b
  | .num n => n != 0
  | .str s => s != ""
  | .arr [] => false
  | .arr (_ :: _) => true
  | .obj [] => false
  | .obj (_ :: _) => true

/-! ## A model of json.dumps (only used for the tool_use input fallback;
no claim depends on the exact rendering, only on both sides of the
refinement using the same serialization). -/

mutual

/-- Model of json.dumps(v, ensure_ascii=False): a compact serialization. -/
def jdump : JVal → String
  | .null => "null"
  | .bool true => "true"
  | .bool false => "false"
  | .num n => toString n
  | .str s => "\"" ++ s ++ "\""
  | .arr items => "[" ++ String.intercalate ", " (jdumpList items) ++ "]"
  | .obj fields =>
    "\x7b" ++ String.intercalate ", " (jdumpFields fields) ++ "\x7d"

def jdumpList : List JVal → List String
  | [] => []
  | v :: vs => jdump v :: jdumpList vs

def jdumpFields : List (String × JVal) → List String
  | [] => []
  | (k, v) :: fs => ("\"" ++ k ++ "\": " ++ jdump v) :: jdumpFields fs

end

/-! ## A model of json.loads (recursive-descent JSON parser; returns none
where Python raises, which the sources always catch around loads calls). -/

/-- JSON structural whitespace. -/
def jskipWs (cs : List Char) : List Char :=
  cs.dropWhile (fun c => c = ' ' || c = '\t' || c = '\n' || c = '\r')

/-- Value of one hexadecimal digit. -/
def hexVal (c : Char) : Option Nat :=
  if '0' ≤ c && c ≤ '9' then some (c.toNat - 48)
  else if 'a' ≤ c && c ≤ 'f' then some (c.toNat - 87)
  else if 'A' ≤ c && c ≤ 'F' then some (c.toNat - 55)
  else none

/-- JSON single-character escapes. -/
def escChar (e : Char) : Option Char :=
  if e = '"' then some '"'
  else if e = '\\' then some '\\'
  else if e = '/' then some '/'
  else if e = 'b' then some '\x08'
  else if e = 'f' then some '\x0c'
  else if e = 'n' then some '\n'
  else if e = 'r' then some '\r'
  else if e = 't' then some '\t'
  else none

/-- Parse the characters of a JSON string after the opening quote, returning
the content and the remainder after the closing quote. -/
def pStringChars : List Char → Option (List Char × List Char)
  | [] => none
  | c :: rest =>
    if c = '"' then some ([], rest)
    else if c = '\\' then
      match rest with
      | [] => none
      | e :: rest2 =>
        if e = 'u' then
          match rest2 with
          | h1 :: h2 :: h3 :: h4 :: rest3 =>
            match hexVal h1, hexVal h2, hexVal h3, hexVal h4 with
            | some a, some b, some c2, some d =>
              (match pStringChars rest3 with
               | some (cs, rem) =>
                 some (Char.ofNat (((a * 16 + b) * 16 + c2) * 16 + d) :: cs,
                   rem)
               | none => none)
            | _, _, _, _ => none
          | _ => none
        else
          match escChar e with
          | some ec =>
            (match pStringChars rest2 with
             | some (cs, rem) => some (ec :: cs, rem)
             | none => none)
          | none => none
    else
      match pStringChars rest with
      | some (cs, rem) => some (c :: cs, rem)
      | none => none

/-- Consume an optional exponent. -/
def pNumberExp (cs3 : List Char) : List Char :=
  match cs3 with
  | 'e' :: '+' :: r => r.dropWhile Char.isDigit
  | 'e' :: '-' :: r => r.dropWhile Char.isDigit
  | 'e' :: r => r.dropWhile Char.isDigit
  | 'E' :: '+' :: r => r.dropWhile Char.isDigit
  | 'E' :: '-' :: r => r.dropWhile Char.isDigit
  | 'E' :: r => r.dropWhile Char.isDigit
  | _ => cs3

/-- Consume an optional fraction and exponent after the integer digits. -/
def pNumberTail (cs2 : List Char) : List Char :=
  pNumberExp
    (match cs2 with
     | '.' :: r => r.dropWhile Char.isDigit
     | _ => cs2)

/-- Digits, optional fraction and exponent of a JSON number. -/
def pNumberCore (neg : Bool) (cs1 : List Char) : Option (JVal × List Char) :=
  if cs1.takeWhile Char.isDigit = [] then none
  else
    some (.num (if neg then -(Int.ofNat (digitsVal (cs1.takeWhile Char.isDigit)))
      else Int.ofNat (digitsVal (cs1.takeWhile Char.isDigit))),
      pNumberTail (cs1.dropWhile Char.isDigit))

/-- Parse a JSON number (sign and integer part; a fractional part or
exponent is consumed but the value keeps only the integer part, which no
claim depends on). -/
def pNumber (cs : List Char) : Option (JVal × List Char) :=
  match cs with
  | '-' :: cs1 => pNumberCore true cs1
  | _ => pNumberCore false cs

mutual

/-- Parse one JSON value (fuel bounds the nesting and element count; loads
supplies ample fuel). -/
def pVal : Nat → List Char → Option (JVal × List Char)
  | 0, _ => none
  | fuel + 1, cs =>
    match jskipWs cs with
    | [] => none
    | c :: rest =>
      if c = '"' then
        match pStringChars rest with
        | some (content, rem) => some (.str (String.mk content), rem)
        | none => none
      else if c = '\x7b' then pObjBody fuel rest []
      else if c = '[' then pArrBody fuel rest []
      else if c = 't' then
        match rest with
        | 'r' :: 'u' :: 'e' :: rem => some (.bool true, rem)
        | _ => none
      else if c = 'f' then
        match rest with
        | 'a' :: 'l' :: 's' :: 'e' :: rem => some (.bool false, rem)
        | _ => none
      else if c = 'n' then
        match rest with
        | 'u' :: 'l' :: 'l' :: rem => some (.null, rem)
        | _ => none
      else pNumber (c :: rest)

/-- Parse object members after the opening brace. -/
def pObjBody : Nat → List Char → List (String × JVal) →
    Option (JVal × List Char)
  | 0, _, _ => none
  | fuel + 1, cs, acc =>
    match jskipWs cs with
    | [] => none
    | c :: rest =>
      if c = '\x7d' then some (.obj acc, rest)
      else if c = '"' then
        match pStringChars rest with
        | some (kcs, rem) =>
          (match jskipWs rem with
           | ':' :: rem2 =>
             (match pVal fuel rem2 with
              | some (v, rem3) =>
                (match jskipWs rem3 with
                 | ',' :: rem4 =>
                   pObjBody fuel rem4 (setField acc (String.mk kcs) v)
                 | '\x7d' :: rem4 =>
                   some (.obj (setField acc (String.mk kcs) v), rem4)
                 | _ => none)
              | none => none)
           | _ => none)
        | none => none
      else none

/-- Parse array elements after the opening bracket. -/
def pArrBody : Nat → List Char → List JVal → Option (JVal × List Char)
  | 0, _, _ => none
  | fuel + 1, cs, acc =>
    match jskipWs cs with
    | [] => none
    | c :: rest =>
      if c = ']' then some (.arr acc, rest)
      else
        match pVal fuel (c :: rest) with
        | some (v, rem) =>
          (match jskipWs rem with
           | ',' :: rem2 => pArrBody fuel rem2 (acc ++ [v])
           | ']' :: rem2 => some (.arr (acc ++ [v]), rem2)
           | _ => none)
        | none => none

end

/-- Model of json.loads: parse one document, require only whitespace after
it; none models the ValueError Python raises. -/
def loads (s : String) : Option JVal :=
  match pVal (s.data.length * 4 + 16) s.data with
  | some (v, rest) => if jskipWs rest = [] then some v else none
  | none => none

/-! ## Schema extractor (convert_all_chat.py lines 22-171) -/

/-- The repeated source idiom v = d.get(k); isinstance(v, str) and
v.strip(): the value of key k when it is a string with non-blank content. -/
def strAt (fields : List (String × JVal)) (k : String) : Option String :=
  match jget fields k with
  | some (.str v) => if pyStrip v = "" then none else some v
  | _ => none

/-- Embedding of try_parse_nested_json (lines 22-36): parse the string; if
it is a mapping, return the first of output/content/text/message that is a
non-blank string; otherwise return the input unchanged.  Totality models the
try/except that swallows every parse error. -/
def try_parse_nested_json (s : String) : String :=
  match loads s with
  | some (.obj fields) =>
    (match strAt fields "output" <|> strAt fields "content" <|>
        strAt fields "text" <|> strAt fields "message" with
     | some v => v
     | none => s)
  | _ => s

/-- The texts the content-list loop of extract_from_claude_message collects
(lines 58-82): "text" parts contribute their non-blank string; "tool_use"
parts contribute input.prompt when it is a non-blank string, else the
json.dumps of the whole input mapping (an absent input defaults to the empty
mapping, as Python's .get("input", {})); parts that are not mappings and
inputs that are not mappings contribute nothing. -/
def claudeParts : List JVal → List String
  | [] => []
  | .obj p :: rest =>
    (match jget p "type" with
     | some (.str ty) =>
       if ty = "text" then
         (match jget p "text" with
          | some (.str t) => if pyStrip t = "" then [] else [t]
          | _ => [])
       else if ty = "tool_use" then
         (match (jget p "input").getD (.obj []) with
          | .obj io =>
            (match jget io "prompt" with
             | some (.str pv) =>
               if pyStrip pv = "" then [jdump (.obj io)] else [pv]
             | _ => [jdump (.obj io)])
          | _ => [])
       else []
     | _ => []) ++ claudeParts rest
  | _ :: rest => claudeParts rest

/-- Embedding of extract_from_claude_message (lines 39-91). -/
def extract_from_claude_message (m : List (String × JVal)) :
    Option JVal × String :=
  match jget m "content" with
  | some (.arr parts) =>
    (match claudeParts parts with
     | [] => (jget m "role", "")
     | ts => (jget m "role", String.intercalate "\n\n" ts))
  | some (.str c) =>
    if pyStrip c = "" then (jget m "role", "") else (jget m "role", c)
  | _ => (jget m "role", "")

/-- The texts collected from a Gemini parts list (lines 109-115). -/
def geminiParts : List JVal → List String
  | [] => []
  | .obj p :: rest =>
    (match jget p "text" with
     | some (.str t) => if pyStrip t = "" then [] else [t]
     | _ => []) ++ geminiParts rest
  | _ :: rest => geminiParts rest

/-- Embedding of extract_from_gemini_message (lines 94-120). -/
def extract_from_gemini_message (o : List (String × JVal)) :
    Option JVal × String :=
  match jget o "parts" with
  | some (.arr ps) =>
    (match geminiParts ps with
     | [] => (jget o "role", "")
     | ts => (jget o "role", String.intercalate "\n\n" ts))
  | _ => (jget o "role", "")

/-- Steps 3-5 of extract_text (lines 146-171): top-level content/text, then
the payload mapping (content/text/message, then the nested-JSON output),
else the role with empty text. -/
def extract_codex (o : List (String × JVal)) : Option JVal × String :=
  match strAt o "content" <|> strAt o "text" with
  | some v => (jget o "role", v)
  | none =>
    match jget o "payload" with
    | some (.obj pl) =>
      (match strAt pl "content" <|> strAt pl "text" <|>
          strAt pl "message" with
       | some v => (jget o "role", v)
       | none =>
         match strAt pl "output" with
         | some v => (jget o "role", try_parse_nested_json v)
         | none => (jget o "role", ""))
    | _ => (jget o "role", "")

/-- Step 2 of extract_text (lines 140-144): the Gemini shape is attempted
when parts is a list and a role key is present, and wins when it yields
non-blank text. -/
def extract_gemini_step (o : List (String × JVal)) : Option JVal × String :=
  match jget o "parts", jget o "role" with
  | some (.arr _), some _ =>
    (match extract_from_gemini_message o with
     | (role, text) =>
       if pyStrip text = "" then extract_codex o else (role, text))
  | _, _ => extract_codex o

/-- Embedding of extract_text (lines 123-171): the nested Claude message is
attempted first and wins when it yields non-blank text, then the Gemini
shape, then the flat and payload shapes. -/
def extract_text (o : List (String × JVal)) : Option JVal × String :=
  match jget o "message" with
  | some (.obj m) =>
    (match extract_from_claude_message m with
     | (role, text) =>
       if pyStrip text = "" then extract_gemini_step o else (role, text))
  | _ => extract_gemini_step o

/-! ## Text renderer (convert_all_chat.py write_messages_to_txt,
lines 174-203) -/

/-- Python text.strip().split("\n")[0]. -/
def firstLine (s : String) : String :=
  String.mk (s.data.takeWhile (fun c => c ≠ '\n'))

/-- The question filter of write_messages_to_txt: role is a truthy string
whose lower-casing is "user". -/
def isUserRole : Option JVal → Bool
  | some (.str r) => r != "" && pyLower r == "user"
  | _ => false

/-- The Question Index entries: first line of the stripped text of every
user message, kept when non-empty (lines 179-185). -/
def questionsOf (msgs : List (Option JVal × String)) : List String :=
  msgs.flatMap (fun m =>
    if isUserRole m.1 then
      if firstLine (pyStrip m.2) = "" then [] else [firstLine (pyStrip m.2)]
    else [])

/-- The index start marker written by the renderer (line 193). -/
def qIndexStart : String := "============ 问题索引（User Questions） ============"

/-- The index end marker (line 196, 52 equal signs). -/
def qIndexEnd : String := "==========================\x3d========================="

/-- The numbered index lines, f-string i. q with i counting from the given
start (enumerate(questions, 1)). -/
def numberedConcat : Nat → List String → String
  | _, [] => ""
  | i, q :: qs => natRepr i ++ ". " ++ q ++ "\n" ++ numberedConcat (i + 1) qs

/-- One message body block (lines 199-203): ROLE:\ntext\n\n for a truthy
role, text\n\n otherwise.  A truthy non-string role would make Python's
role.upper() raise AttributeError, modelled as none. -/
def renderBlock (role : Option JVal) (text : String) : Option String :=
  match role with
  | some (.str r) =>
    if r = "" then some (text ++ "\n\n")
    else some (pyUpper r ++ ":\n" ++ text ++ "\n\n")
  | none => some (text ++ "\n\n")
  | some v => if pyTruthy v then none else some (text ++ "\n\n")

/-- The concatenated body blocks of all messages. -/
def renderBody : List (Option JVal × String) → Option String
  | [] => some ""
  | (role, text) :: rest =>
    match renderBlock role text, renderBody rest with
    | some b, some r => some (b ++ r)
    | _, _ => none

/-- Embedding of write_messages_to_txt: the full text written to the txt
artifact (the Question Index block when any question exists, then the
message blocks); none models the AttributeError on a truthy non-string
role. -/
def write_messages_to_txt (msgs : List (Option JVal × String)) :
    Option String :=
  match renderBody msgs with
  | none => none
  | some body =>
    if questionsOf msgs = [] then some body
    else some (qIndexStart ++ "\n" ++ numberedConcat 1 (questionsOf msgs) ++
      qIndexEnd ++ "\n\n\n" ++ body)

/-! ## Question-index extractor (export-txt2pdf2.py lines 63-89, identical
in export-txt2pdf.py lines 71-98) -/

/-- The characters Python str.splitlines breaks on. -/
def isLineBreakChar (c : Char) : Bool :=
  c = '\n' || c = '\r' || c = '\x0b' || c = '\x0c' || c = '\x1c' ||
  c = '\x1d' || c = '\x1e' || c = '\x85' || c = '\u2028' || c = '\u2029'

/-- Python str.splitlines on a character list (acc holds the current line
reversed; a final line without terminator is kept, a trailing terminator
adds no empty line). -/
def splitlinesAux : List Char → List Char → List (List Char)
  | acc, [] => if acc = [] then [] else [acc.reverse]
  | acc, c :: rest =>
    if c = '\r' then
      match rest with
      | [] => acc.reverse :: splitlinesAux [] []
      | d :: rest2 =>
        if d = '\n' then acc.reverse :: splitlinesAux [] rest2
        else acc.reverse :: splitlinesAux [] (d :: rest2)
    else if isLineBreakChar c then acc.reverse :: splitlinesAux [] rest
    else splitlinesAux (c :: acc) rest

/-- Python content.splitlines(). -/
def splitlinesS (s : String) : List String :=
  (splitlinesAux [] s.data).map String.mk

/-- The regex match of one index line: re.match of optional whitespace, a
digit run, a dot, optional whitespace, then at least one character; the
captured tail is stripped and kept when non-empty (lines 83-87). -/
def parseQLine (line : String) : Option String :=
  match (line.data.dropWhile isPySpace).takeWhile Char.isDigit with
  | [] => none
  | _ :: _ =>
    match (line.data.dropWhile isPySpace).drop
        ((line.data.dropWhile isPySpace).takeWhile Char.isDigit).length with
    | '.' :: rest2 =>
      (match rest2.dropWhile isPySpace with
       | [] => none
       | rest3 =>
         if pyStrip (String.mk rest3) = "" then none
         else some (pyStrip (String.mk rest3)))
    | _ => none

/-- The line loop of extract_questions_from_txt: a line starting with the
short start marker (re)enters the index, a further === line inside the index
ends the scan, and index lines matching the regex contribute questions. -/
def extractQLoop : List String → Bool → List String
  | [], _ => []
  | l :: ls, inIndex =>
    if pyStartsWith l "============ 问题索引" then extractQLoop ls true
    else if inIndex && pyStartsWith l "===" then []
    else if inIndex then
      match parseQLine l with
      | some q => q :: extractQLoop ls true
      | none => extractQLoop ls true
    else extractQLoop ls false

/-- Embedding of extract_questions_from_txt. -/
def extract_questions_from_txt (content : String) : List String :=
  extractQLoop (splitlinesS content) false

/-! ## Message aggregators (convert_all_chat.py lines 206-275) -/

/-- The value of key k when it is a list. -/
def arrAt (fields : List (String × JVal)) (k : String) : Option (List JVal) :=
  match jget fields k with
  | some (.arr xs) => some xs
  | _ => none

/-- The first of the candidate list-valued fields of a single-document log
(lines 248-252). -/
def firstKeyList (fields : List (String × JVal)) : Option (List JVal) :=
  arrAt fields "history" <|> arrAt fields "contents" <|>
    arrAt fields "messages" <|> arrAt fields "conversation" <|>
    arrAt fields "items"

/-- The mappings among a list of parsed values (isinstance(x, dict)
filtering). -/
def dictsOf (xs : List JVal) : List (List (String × JVal)) :=
  xs.filterMap (fun x =>
    match x with
    | .obj f => some f
    | _ => none)

/-- The per-object extraction loop of process_json_file (lines 259-273):
objects with a candidates list contribute each candidate's content mapping,
other objects are extracted directly; blank-text extractions are
dropped. -/
def extractMsgs (objs : List (List (String × JVal))) :
    List (Option JVal × String) :=
  objs.flatMap (fun obj =>
    match jget obj "candidates" with
    | some (.arr cands) =>
      cands.flatMap (fun cand =>
        match cand with
        | .obj cf =>
          (match jget cf "content" with
           | some (.obj cm) =>
             (match extract_text cm with
              | (r, t) => if pyStrip t = "" then [] else [(r, t)])
           | _ => [])
        | _ => [])
    | _ =>
      match extract_text obj with
      | (r, t) => if pyStrip t = "" then [] else [(r, t)])

/-- Embedding of process_json_file (lines 230-275): none when the document
does not parse (the function returns before writing anything); otherwise
the message list whose rendering is written.  A top-level list uses its
mapping elements; a top-level mapping uses the first candidate list-valued
field, falling back to the whole mapping; anything else yields no
messages. -/
def process_json_file (content : String) :
    Option (List (Option JVal × String)) :=
  match loads content with
  | none => none
  | some (.arr xs) => some (extractMsgs (dictsOf xs))
  | some (.obj fields) =>
    (match firstKeyList fields with
     | some xs =>
       (match dictsOf xs with
        | [] => some (extractMsgs [fields])
        | objs => some (extractMsgs objs))
     | none => some (extractMsgs [fields]))
  | some _ => some (extractMsgs [])

/-- Embedding of process_jsonl_file (lines 206-227): blank lines are
skipped, unparseable lines are skipped by the except/continue, parsed
mappings are extracted (blank text dropped); a parsed non-mapping would make
extract_text's .get raise outside the try, modelled as none. -/
def process_jsonl_file (lines : List String) :
    Option (List (Option JVal × String)) :=
  match lines with
  | [] => some []
  | line :: rest =>
    if pyStrip line = "" then process_jsonl_file rest
    else
      match loads (pyStrip line) with
      | none => process_jsonl_file rest
      | some (.obj fields) =>
        (match extract_text fields, process_jsonl_file rest with
         | (r, t), some ms =>
           some (if pyStrip t = "" then ms else (r, t) :: ms)
         | _, none => none)
      | some _ => none

/-! ## Specification-side definitions (written from the spec/claim wording,
for the refinement claims C2, C4 and C7; they are compared against the
source-side definitions above) -/

/-- Claim side, C2 shape 1: what one content part contributes per the spec:
a text part its non-empty string, a tool_use part input.prompt when present
and non-empty else a dump of the whole input mapping. -/
def spec_claude_part_text (part : JVal) : Option String :=
  match part with
  | .obj p =>
    (match jget p "type" with
     | some (.str ty) =>
       if ty = "text" then
         (match jget p "text" with
          | some (.str t) => if pyStrip t = "" then none else some t
          | _ => none)
       else if ty = "tool_use" then
         (match (jget p "input").getD (.obj []) with
          | .obj io =>
            (match jget io "prompt" with
             | some (.str pv) =>
               if pyStrip pv = "" then some (jdump (.obj io))
               else some pv
             | _ => some (jdump (.obj io)))
          | _ => none)
       else none
     | _ => none)
  | _ => none

/-- Claim side, C2 shape 1: the text of a nested message: its string
content, or the contributing parts joined by a blank line. -/
def spec_claude_text (m : List (String × JVal)) : String :=
  match jget m "content" with
  | some (.str c) => if pyStrip c = "" then "" else c
  | some (.arr parts) =>
    String.intercalate "\n\n" (parts.filterMap spec_claude_part_text)
  | _ => ""

/-- Claim side, C2 shape 2: the text of a flat role/parts record: the
non-empty text strings of its part mappings joined by a blank line. -/
def spec_gemini_text (o : List (String × JVal)) : String :=
  match jget o "parts" with
  | some (.arr ps) =>
    String.intercalate "\n\n" (ps.filterMap (fun p =>
      match p with
      | .obj pf =>
        (match jget pf "text" with
         | some (.str t) => if pyStrip t = "" then none else some t
         | _ => none)
      | _ => none))
  | _ => ""

/-- Claim side, C4: the record yields text through none of the known
shapes: any nested message gives blank text, the parts shape gives blank
text, no top-level content/text string, and no payload text. -/
def noTextShape (o : List (String × JVal)) : Bool :=
  (match jget o "message" with
   | some (.obj m) => pyStrip (spec_claude_text m) == ""
   | _ => true) &&
  (pyStrip (spec_gemini_text o) == "") &&
  (strAt o "content" <|> strAt o "text").isNone &&
  (match jget o "payload" with
   | some (.obj pl) =>
     (strAt pl "content" <|> strAt pl "text" <|> strAt pl "message").isNone
       && (strAt pl "output").isNone
   | _ => true)

/-- Claim side, C7: one rendered message block per the spec: the upper-cased
speaker and a colon line followed by the text and a blank line, or just the
text when the speaker is absent (an empty-string speaker is not a usable
speaker). -/
def spec_block (m : Option JVal × String) : String :=
  match m.1 with
  | some (.str r) =>
    if r = "" then m.2 ++ "\n\n" else pyUpper r ++ ":\n" ++ m.2 ++ "\n\n"
  | _ => m.2 ++ "\n\n"

/-- Claim side, C7: the first lines of the trimmed texts of the
user-speaker messages, in order. -/
def spec_user_first_lines (msgs : List (Option JVal × String)) :
    List String :=
  (msgs.filter (fun m => isUserRole m.1)).map (fun m => firstLine (pyStrip m.2))

/-- Claim side, C7: the concatenated message blocks in order. -/
def spec_body (msgs : List (Option JVal × String)) : String :=
  msgs.foldr (fun m acc => spec_block m ++ acc) ""

/-- Claim side, C7: the whole rendered artifact: the Question Index block
exactly when a user message exists, then every message block in order. -/
def spec_render (msgs : List (Option JVal × String)) : String :=
  (if msgs.any (fun m => isUserRole m.1) then
    qIndexStart ++ "\n" ++ numberedConcat 1 (spec_user_first_lines msgs) ++
      qIndexEnd ++ "\n\n\n"
  else "") ++
  spec_body msgs

/-- The rendered index lines without their terminating newline, as the
splitlines of the rendered index produces them. -/
def qLines : Nat → List String → List String
  | _, [] => []
  | i, q :: qs => (natRepr i ++ ". " ++ q) :: qLines (i + 1) qs

end ChatTxt2Pdf

namespace ChatTxt2Pdf

/-! ## Lemmas about replaceL -/

theorem hasLead_eq_true_iff (p s : List Char) :
    hasLead p s = true ↔ ∃ t, s = p ++ t := by
  induction p generalizing s with
  | nil => simp [hasLead]
  | cons a as ih =>
    cases s with
    | nil => simp [hasLead]
    | cons b bs =>
      simp only [hasLead, Bool.and_eq_true, decide_eq_true_eq, ih]
      constructor
      · rintro ⟨rfl, t, rfl⟩; exact ⟨t, rfl⟩
      · rintro ⟨t, h⟩
        injection h with h1 h2
        exact ⟨h1.symm, t, h2⟩

theorem replaceL_nil (p q : List Char) : replaceL p q [] = [] := by
  simp [replaceL]

theorem replaceL_cons (p q : List Char) (c : Char) (rest : List Char) :
    replaceL p q (c :: rest) =
      if p ≠ [] ∧ hasLead p (c :: rest) then
        q ++ replaceL p q ((c :: rest).drop p.length)
      else
        c :: replaceL p q rest := by
  rw [replaceL]
  split <;> simp_all

/-- Every character of the output comes from the replacement or the input. -/
theorem mem_replaceL (p q s : List Char) (c : Char)
    (h : c ∈ replaceL p q s) : c ∈ q ∨ c ∈ s := by
  induction s using replaceL.induct p q with
  | case1 => simp [replaceL_nil] at h
  | case2 d rest hcond ih =>
    rw [replaceL_cons] at h
    rw [if_pos hcond] at h
    rcases List.mem_append.mp h with hq | hr
    · exact Or.inl hq
    · rcases ih hr with hq | hs
      · exact Or.inl hq
      · exact Or.inr (List.mem_of_mem_drop hs)
  | case3 d rest hcond ih =>
    rw [replaceL_cons] at h
    rw [if_neg hcond] at h
    rcases List.mem_cons.mp h with rfl | hr
    · exact Or.inr (List.mem_cons_self _ _)
    · rcases ih hr with hq | hs
      · exact Or.inl hq
      · exact Or.inr (List.mem_cons_of_mem _ hs)

/-- Replacing the single character a by a list not containing a removes
every occurrence of a. -/
theorem not_mem_replaceL_single (a : Char) (q s : List Char)
    (hq : a ∉ q) : a ∉ replaceL [a] q s := by
  induction s using replaceL.induct [a] q with
  | case1 => simp [replaceL_nil]
  | case2 d rest hcond ih =>
    rw [replaceL_cons, if_pos hcond]
    intro hmem
    rcases List.mem_append.mp hmem with h | h
    · exact hq h
    · exact ih h
  | case3 d rest hcond ih =>
    rw [replaceL_cons, if_neg hcond]
    intro hmem
    rcases List.mem_cons.mp hmem with rfl | h
    · apply hcond
      refine ⟨by simp, ?_⟩
      simp [hasLead]
    · exact ih h

/-- If a character is in neither the input nor the replacement, it is not in
the output. -/
theorem not_mem_replaceL (p q s : List Char) (a : Char)
    (hq : a ∉ q) (hs : a ∉ s) : a ∉ replaceL p q s := by
  intro h
  rcases mem_replaceL p q s a h with h | h
  · exact hq h
  · exact hs h

theorem chain'_drop {α : Type} {R : α → α → Prop} (n : Nat) (l : List α)
    (h : l.Chain' R) : (l.drop n).Chain' R := by
  induction n generalizing l with
  | zero => simpa using h
  | succ n ih =>
    cases l with
    | nil => simp
    | cons c rest => exact ih rest (List.Chain'.tail h)

/-- The head of a replaceL output is the head of the input or the head of the
(non-empty) replacement. -/
theorem head?_replaceL (p q s : List Char) (hq0 : q ≠ []) :
    (replaceL p q s).head? = s.head? ∨ (replaceL p q s).head? = q.head? := by
  cases s with
  | nil => left; simp [replaceL_nil]
  | cons c rest =>
    rw [replaceL_cons]
    split
    · right
      cases q with
      | nil => exact absurd rfl hq0
      | cons x xs => simp
    · left; simp

/-- An adjacent pair starting with a cannot occur in a list none of whose
elements is a. -/
theorem noPair_of_forall_ne (a b : Char) (l : List Char)
    (h : ∀ c ∈ l, c ≠ a) : NoPair a b l := by
  induction l with
  | nil => exact List.chain'_nil
  | cons x xs ih =>
    refine List.chain'_cons'.mpr
      ⟨?_, ih (fun c hc => h c (List.mem_cons_of_mem _ hc))⟩
    intro y _ hab
    exact h x (List.mem_cons_self _ _) hab.1

/-- Replacement preserves absence of an adjacent pair, provided the
replacement itself is free of the pair, does not end with the pair's first
character and does not start with its second. -/
theorem noPair_replaceL_pres (a b : Char) (p q s : List Char)
    (hq0 : q ≠ []) (hs : NoPair a b s) (hq : NoPair a b q)
    (hlast : q.getLast hq0 ≠ a) (hhead : q.head hq0 ≠ b) :
    NoPair a b (replaceL p q s) := by
  induction s using replaceL.induct p q with
  | case1 => simp [NoPair, replaceL_nil]
  | case2 c rest hcond ih =>
    rw [replaceL_cons, if_pos hcond]
    refine List.chain'_append.mpr ⟨hq, ih (chain'_drop _ _ hs), ?_⟩
    intro x hx y _ hab
    rw [List.getLast?_eq_getLast q hq0, Option.mem_def, Option.some.injEq]
       at hx
    exact hlast (hx ▸ hab.1)
  | case3 c rest hcond ih =>
    rw [replaceL_cons, if_neg hcond]
    refine List.chain'_cons'.mpr ⟨?_, ih (List.Chain'.tail hs)⟩
    intro y hy hab
    rcases head?_replaceL p q rest hq0 with hh | hh
    · rw [hh] at hy
      rcases (List.chain'_cons'.mp hs).1 y hy ⟨hab.1, hab.2⟩
    · rw [hh, List.head?_eq_head hq0, Option.mem_def, Option.some.injEq]
         at hy
      exact hhead (hy ▸ hab.2)

/-- Replacing the pattern a,b removes every adjacent occurrence of a,b,
under the same conditions on the replacement. -/
theorem noPair_replaceL_self (a b : Char) (q s : List Char)
    (hq0 : q ≠ []) (hq : NoPair a b q)
    (hlast : q.getLast hq0 ≠ a) (hhead : q.head hq0 ≠ b) :
    NoPair a b (replaceL [a, b] q s) := by
  induction s using replaceL.induct [a, b] q with
  | case1 => simp [NoPair, replaceL_nil]
  | case2 c rest hcond ih =>
    rw [replaceL_cons, if_pos hcond]
    refine List.chain'_append.mpr ⟨hq, ih, ?_⟩
    intro x hx y _ hab
    rw [List.getLast?_eq_getLast q hq0, Option.mem_def, Option.some.injEq]
       at hx
    exact hlast (hx ▸ hab.1)
  | case3 c rest hcond ih =>
    rw [replaceL_cons, if_neg hcond]
    refine List.chain'_cons'.mpr ⟨?_, ih⟩
    intro y hy hab
    rcases head?_replaceL [a, b] q rest hq0 with hh | hh
    · rw [hh] at hy
      apply hcond
      refine ⟨by simp, ?_⟩
      cases rest with
      | nil => simp at hy
      | cons d r =>
        simp only [List.head?_cons, Option.mem_def, Option.some.injEq] at hy
        simp [hasLead, hab.1, hy ▸ hab.2]
    · rw [hh, List.head?_eq_head hq0, Option.mem_def, Option.some.injEq]
         at hy
      exact hhead (hy ▸ hab.2)

/-- A pattern whose first character never occurs in the input is never
replaced. -/
theorem replaceL_eq_self_of_head_not_mem (c : Char) (p' q s : List Char)
    (h : c ∉ s) : replaceL (c :: p') q s = s := by
  induction s with
  | nil => simp [replaceL_nil]
  | cons d rest ih =>
    rw [replaceL_cons]
    rw [if_neg, ih (fun hm => h (List.mem_cons_of_mem _ hm))]
    rintro ⟨-, hl⟩
    rcases (hasLead_eq_true_iff _ _).mp hl with ⟨t, ht⟩
    injection ht with h1 _
    exact h (h1 ▸ List.mem_cons_self _ _)

/-- A pattern whose first two characters never occur adjacently in the input
is never replaced. -/
theorem replaceL_eq_self_of_noPair (a b : Char) (p' q s : List Char)
    (h : NoPair a b s) : replaceL (a :: b :: p') q s = s := by
  induction s with
  | nil => simp [replaceL_nil]
  | cons d rest ih =>
    rw [replaceL_cons]
    rw [if_neg, ih (List.Chain'.tail h)]
    rintro ⟨-, hl⟩
    rcases (hasLead_eq_true_iff _ _).mp hl with ⟨t, ht⟩
    rw [ht] at h
    rcases (List.chain'_cons'.mp h).1 b (by simp) ⟨rfl, rfl⟩

/-! ## C10: normalize_content facts -/

theorem normData_no_cr (s : List Char) : '\r' ∉ normData s := by
  unfold normData
  apply not_mem_replaceL _ _ _ _ (by decide)
  apply not_mem_replaceL _ _ _ _ (by decide)
  apply not_mem_replaceL _ _ _ _ (by decide)
  apply not_mem_replaceL _ _ _ _ (by decide)
  apply not_mem_replaceL _ _ _ _ (by decide)
  exact not_mem_replaceL_single _ _ _ (by decide)

theorem normData_no_tab (s : List Char) : '\t' ∉ normData s := by
  unfold normData
  exact not_mem_replaceL_single _ _ _ (by decide)

theorem normData_noPair_bn (s : List Char) : NoPair '\\' 'n' (normData s) := by
  unfold normData
  apply noPair_replaceL_pres _ _ _ _ _ (by decide) _
    (noPair_of_forall_ne _ _ _ (by decide)) (by decide) (by decide)
  apply noPair_replaceL_pres _ _ _ _ _ (by decide) _
    (noPair_of_forall_ne _ _ _ (by decide)) (by decide) (by decide)
  apply noPair_replaceL_pres _ _ _ _ _ (by decide) _
    (noPair_of_forall_ne _ _ _ (by decide)) (by decide) (by decide)
  exact noPair_replaceL_self _ _ _ _ (by decide)
    (noPair_of_forall_ne _ _ _ (by decide)) (by decide) (by decide)

theorem normData_noPair_br (s : List Char) : NoPair '\\' 'r' (normData s) := by
  unfold normData
  apply noPair_replaceL_pres _ _ _ _ _ (by decide) _
    (noPair_of_forall_ne _ _ _ (by decide)) (by decide) (by decide)
  apply noPair_replaceL_pres _ _ _ _ _ (by decide) _
    (noPair_of_forall_ne _ _ _ (by decide)) (by decide) (by decide)
  exact noPair_replaceL_self _ _ _ _ (by decide)
    (noPair_of_forall_ne _ _ _ (by decide)) (by decide) (by decide)

theorem normData_noPair_bt (s : List Char) : NoPair '\\' 't' (normData s) := by
  unfold normData
  apply noPair_replaceL_pres _ _ _ _ _ (by decide) _
    (noPair_of_forall_ne _ _ _ (by decide)) (by decide) (by decide)
  exact noPair_replaceL_self _ _ _ _ (by decide)
    (noPair_of_forall_ne _ _ _ (by decide)) (by decide) (by decide)

theorem normData_idem (s : List Char) : normData (normData s) = normData s := by
  conv_lhs => rw [normData]
  rw [replaceL_eq_self_of_head_not_mem _ _ _ _ (normData_no_cr s)]
  rw [replaceL_eq_self_of_head_not_mem _ _ _ _ (normData_no_cr s)]
  rw [replaceL_eq_self_of_noPair _ _ _ _ _ (normData_noPair_br s)]
  rw [replaceL_eq_self_of_noPair _ _ _ _ _ (normData_noPair_bn s)]
  rw [replaceL_eq_self_of_noPair _ _ _ _ _ (normData_noPair_br s)]
  rw [replaceL_eq_self_of_noPair _ _ _ _ _ (normData_noPair_bt s)]
  rw [replaceL_eq_self_of_head_not_mem _ _ _ _ (normData_no_tab s)]

/-! ## C1 and C9: the incremental export batch -/

theorem sortStrings_sorted (l : List String) :
    (sortStrings l).Sorted strLe :=
  List.sorted_insertionSort strLe l

theorem sortStrings_perm (l : List String) :
    List.Perm (sortStrings l) l :=
  List.perm_insertionSort strLe l

/-- C1: in incremental mode the ExportBatch is exactly the set of scanned
paths absent from the prior ChangeSet (new) together with scanned paths
whose recorded digest differs from the current one (modified); equivalently
it is the sorted full scan restricted to that predicate, and it never
contains a path absent from the current scan. -/
theorem incremental_batch_correct (old : List (String × String))
    (scan : List String) (digest : String → String)
    (hsort : scan.Sorted strLe) (hnd : scan.Nodup) :
    computeBatch old scan digest =
      scan.filter (fun p => List.lookup p old != some (digest p)) ∧
    (∀ p, p ∈ computeBatch old scan digest ↔
      p ∈ scan ∧ (List.lookup p old = none ∨
        ∃ d, List.lookup p old = some d ∧ d ≠ digest p)) ∧
    (∀ p ∈ computeBatch old scan digest, p ∈ scan) := by
  have hdis : List.Disjoint
      (scan.filter (fun p => (List.lookup p old).isNone))
      (scan.filter (fun p =>
        match List.lookup p old with
        | some d => d != digest p
        | none => false)) := by
    intro p hp hq
    simp only [List.mem_filter, Option.isNone_iff_eq_none] at hp hq
    rw [hp.2] at hq
    simp at hq
  have hnodup :
      ((scan.filter (fun p => (List.lookup p old).isNone)) ++
        scan.filter (fun p =>
          match List.lookup p old with
          | some d => d != digest p
          | none => false)).Nodup :=
    List.Nodup.append (hnd.filter _) (hnd.filter _) hdis
  have hmem : ∀ p,
      (p ∈ (scan.filter (fun p => (List.lookup p old).isNone)) ++
        scan.filter (fun p =>
          match List.lookup p old with
          | some d => d != digest p
          | none => false)) ↔
      p ∈ scan.filter (fun p => List.lookup p old != some (digest p)) := by
    intro p
    simp only [List.mem_append, List.mem_filter,
      Option.isNone_iff_eq_none]
    cases h : List.lookup p old with
    | none => simp [h]
    | some d => simp [h]
  have key : computeBatch old scan digest =
      scan.filter (fun p => List.lookup p old != some (digest p)) := by
    apply List.eq_of_perm_of_sorted ?_ (sortStrings_sorted _)
      (List.Pairwise.sublist (List.filter_sublist scan) hsort)
    refine (sortStrings_perm _).trans ?_
    rw [List.dedup_eq_self.mpr hnodup]
    exact (List.perm_ext_iff_of_nodup hnodup (hnd.filter _)).mpr hmem
  refine ⟨key, ?_, ?_⟩
  · intro p
    rw [key, List.mem_filter]
    cases h : List.lookup p old with
    | none => simp [h]
    | some d => simp [h]
  · intro p hp
    rw [key, List.mem_filter] at hp
    exact hp.1

/-- Witness for C1: the spec scenario, prior ChangeSet a.txt with digest h1,
current scan a.txt (unchanged) and b.txt (new): the batch is exactly
b.txt. -/
theorem incremental_batch_correct_witness :
    computeBatch [("a.txt", "h1")] ["a.txt", "b.txt"]
      (fun p => if p = "a.txt" then "h1" else "h2") = ["b.txt"] := by
  have h := (incremental_batch_correct [("a.txt", "h1")] ["a.txt", "b.txt"]
    (fun p => if p = "a.txt" then "h1" else "h2")
    (by decide) (by decide)).1
  rw [h]
  rfl

/-- C9: when the incremental batch is empty, the driver run renders nothing
and writes no state (mainRun returns the no-effect result). -/
theorem empty_batch_noop (old : List (String × String)) (scan : List String)
    (digest : String → String) (h : computeBatch old scan digest = []) :
    mainRun old scan digest = none := by
  simp [mainRun, h]

/-- Witness for C9: the spec scenario, empty prior ChangeSet and empty
scan: no render, no state write. -/
theorem empty_batch_noop_witness :
    mainRun [] [] (fun _ => "") = none :=
  empty_batch_noop [] [] (fun _ => "") rfl

/-! ## C5: collision-free dated artifact naming -/

theorem hasLead_append_self (p t : List Char) : hasLead p (p ++ t) = true := by
  induction p with
  | nil => rfl
  | cons a as ih => simp [hasLead, ih]

theorem pyStartsWith_append (base t : String) :
    pyStartsWith (base ++ t) base = true := by
  unfold pyStartsWith
  rw [String.data_append]
  exact hasLead_append_self _ _

theorem pyEndsWith_append (t suf : String) :
    pyEndsWith (t ++ suf) suf = true := by
  unfold pyEndsWith
  rw [String.data_append, List.reverse_append]
  exact hasLead_append_self _ _

theorem digitChar_isDigit (d : Nat) (h : d < 10) :
    (digitChar d).isDigit = true := by
  interval_cases d <;> decide

theorem digitChar_toNat (d : Nat) (h : d < 10) :
    (digitChar d).toNat = 48 + d := by
  interval_cases d <;> decide

theorem natDigitsAux_stable (n : Nat) : ∀ f1 f2, n < f1 → n < f2 →
    natDigitsAux f1 n = natDigitsAux f2 n := by
  induction n using Nat.strong_induction_on with
  | _ n ih =>
    intro f1 f2 h1 h2
    cases f1 with
    | zero => omega
    | succ k1 =>
      cases f2 with
      | zero => omega
      | succ k2 =>
        simp only [natDigitsAux]
        by_cases h : n < 10
        · rw [if_pos h, if_pos h]
        · have hd : n / 10 < n := Nat.div_lt_self (by omega) (by omega)
          rw [if_neg h, if_neg h,
            ih (n / 10) hd k1 k2 (by omega) (by omega)]

theorem natDigits_eq (n : Nat) : natDigits n =
    if n < 10 then [digitChar n]
    else natDigits (n / 10) ++ [digitChar (n % 10)] := by
  by_cases h : n < 10
  · rw [if_pos h]
    show natDigitsAux (n + 1) n = _
    simp only [natDigitsAux]
    rw [if_pos h]
  · have hd : n / 10 < n := Nat.div_lt_self (by omega) (by omega)
    rw [if_neg h]
    show natDigitsAux (n + 1) n = _
    simp only [natDigitsAux]
    rw [if_neg h,
      natDigitsAux_stable (n / 10) n (n / 10 + 1) hd (by omega)]
    rfl

theorem natDigits_ne_nil (n : Nat) : natDigits n ≠ [] := by
  rw [natDigits_eq]
  split <;> simp

theorem natDigits_all_digit (n : Nat) :
    ∀ c ∈ natDigits n, c.isDigit = true := by
  induction n using Nat.strong_induction_on with
  | _ n ih =>
    rw [natDigits_eq]
    by_cases h : n < 10
    · rw [if_pos h]
      intro c hc
      rw [List.mem_singleton] at hc
      exact hc ▸ digitChar_isDigit n h
    · rw [if_neg h]
      intro c hc
      rcases List.mem_append.mp hc with hm | hm
      · exact ih (n / 10) (Nat.div_lt_self (by omega) (by omega)) c hm
      · rw [List.mem_singleton] at hm
        exact hm ▸ digitChar_isDigit _ (Nat.mod_lt _ (by omega))

theorem digitsVal_append_digit (l : List Char) (c : Char) :
    digitsVal (l ++ [c]) = digitsVal l * 10 + (c.toNat - 48) := by
  simp [digitsVal, List.foldl_append]

theorem digitsVal_natDigits (n : Nat) : digitsVal (natDigits n) = n := by
  induction n using Nat.strong_induction_on with
  | _ n ih =>
    rw [natDigits_eq]
    by_cases h : n < 10
    · rw [if_pos h]
      simp [digitsVal, digitChar_toNat n h]
    · rw [if_neg h, digitsVal_append_digit,
        ih (n / 10) (Nat.div_lt_self (by omega) (by omega)),
        digitChar_toNat _ (Nat.mod_lt _ (by omega))]
      omega

theorem takeWhile_all (p : Char → Bool) (l : List Char)
    (h : ∀ c ∈ l, p c = true) : l.takeWhile p = l := by
  induction l with
  | nil => rfl
  | cons c cs ih =>
    rw [List.takeWhile_cons, if_pos (h c (List.mem_cons_self _ _)),
      ih (fun x hx => h x (List.mem_cons_of_mem _ hx))]

theorem suffixIdx_base_pdf (base : String) :
    suffixIdx base (base ++ ".pdf") = 1 := by
  unfold suffixIdx
  rw [String.data_append, List.drop_left]
  rfl

theorem suffixIdx_suffixed (base : String) (n : Nat) :
    suffixIdx base (base ++ "_" ++ natRepr n ++ ".pdf") = n := by
  unfold suffixIdx
  have hdata : (base ++ "_" ++ natRepr n ++ ".pdf").data =
      base.data ++ (('_' :: natDigits n) ++ ".pdf".data) := by
    rw [String.data_append, String.data_append, String.data_append]
    simp [natRepr]
  rw [hdata, List.drop_left]
  have htake : listDropRight (('_' :: natDigits n) ++ ".pdf".data) 4 =
      '_' :: natDigits n := by
    unfold listDropRight
    rw [List.take_left']
    simp
  rw [htake]
  show (if ('_' : Char) = '_' then _ else 1) = n
  rw [if_pos rfl,
    takeWhile_all Char.isDigit (natDigits n) (natDigits_all_digit n),
    if_neg (natDigits_ne_nil n)]
  exact digitsVal_natDigits n

theorem le_foldl_max (g : String → Nat) (l : List String) (a : Nat) :
    a ≤ l.foldl (fun acc y => max acc (g y)) a := by
  induction l generalizing a with
  | nil => exact Nat.le_refl a
  | cons y ys ih =>
    exact Nat.le_trans (Nat.le_max_left a (g y)) (ih (max a (g y)))

theorem mem_le_foldl_max (g : String → Nat) (l : List String) (x : String) :
    x ∈ l → ∀ a, g x ≤ l.foldl (fun acc y => max acc (g y)) a := by
  induction l with
  | nil => intro hx; cases hx
  | cons y ys ih =>
    intro hx a
    rcases List.mem_cons.mp hx with rfl | hm
    · exact Nat.le_trans (Nat.le_max_right a (g x)) (le_foldl_max g ys _)
    · exact ih hm _

/-- C5: artifact naming is collision-free.  The name is the unsuffixed
prefix_YYYYMMDD.pdf exactly when that file is not present; otherwise it
carries the maximum trailing numeric suffix of the existing same-day
artifacts plus one (an unsuffixed or unparsable candidate counting as 1,
as in the source); the returned name never collides with an existing file;
and with exactly one prior same-day artifact, the unsuffixed one, the
returned name carries suffix exactly 2. -/
theorem get_dated_pdf_name_correct (pre today : String)
    (files : List String) :
    ((pre ++ "_" ++ today ++ ".pdf") ∉ files →
      get_dated_pdf_name pre today files = pre ++ "_" ++ today ++ ".pdf") ∧
    ((pre ++ "_" ++ today ++ ".pdf") ∈ files →
      get_dated_pdf_name pre today files =
        pre ++ "_" ++ today ++ "_" ++
          natRepr (maxSuffixIdx (pre ++ "_" ++ today)
            (candidatesOf pre today files) + 1) ++ ".pdf") ∧
    get_dated_pdf_name pre today files ∉ files ∧
    (candidatesOf pre today files = [pre ++ "_" ++ today ++ ".pdf"] →
      get_dated_pdf_name pre today files =
        pre ++ "_" ++ today ++ "_" ++ natRepr 2 ++ ".pdf") := by
  have hmemc : ∀ f : String, f ∈ candidatesOf pre today files ↔
      f ∈ files ∧
        (pyStartsWith f (pre ++ "_" ++ today) && pyEndsWith f ".pdf") =
          true := by
    intro f
    unfold candidatesOf
    rw [List.mem_filter]
  have hbase_mem :
      ((pre ++ "_" ++ today ++ ".pdf") ∈ candidatesOf pre today files) ↔
      (pre ++ "_" ++ today ++ ".pdf") ∈ files := by
    rw [hmemc]
    constructor
    · exact fun h => h.1
    · intro h
      refine ⟨h, ?_⟩
      rw [pyStartsWith_append, pyEndsWith_append]
      rfl
  have hA : (pre ++ "_" ++ today ++ ".pdf") ∉ files →
      get_dated_pdf_name pre today files = pre ++ "_" ++ today ++ ".pdf" := by
    intro h
    unfold get_dated_pdf_name
    by_cases hc : candidatesOf pre today files = []
    · rw [if_pos hc]
    · rw [if_neg hc, if_neg (fun hm => h (hbase_mem.mp hm))]
  have hB : (pre ++ "_" ++ today ++ ".pdf") ∈ files →
      get_dated_pdf_name pre today files =
        pre ++ "_" ++ today ++ "_" ++
          natRepr (maxSuffixIdx (pre ++ "_" ++ today)
            (candidatesOf pre today files) + 1) ++ ".pdf" := by
    intro h
    have hm := hbase_mem.mpr h
    unfold get_dated_pdf_name
    rw [if_neg (List.ne_nil_of_mem hm), if_pos hm]
  refine ⟨hA, hB, ?_, ?_⟩
  · by_cases h : (pre ++ "_" ++ today ++ ".pdf") ∈ files
    · rw [hB h]
      intro habs
      have hshape : pre ++ "_" ++ today ++ "_" ++
          natRepr (maxSuffixIdx (pre ++ "_" ++ today)
            (candidatesOf pre today files) + 1) ++ ".pdf" =
          (pre ++ "_" ++ today) ++
            ("_" ++ natRepr (maxSuffixIdx (pre ++ "_" ++ today)
              (candidatesOf pre today files) + 1) ++ ".pdf") := by
        simp [String.append_assoc]
      have h1 : pyStartsWith (pre ++ "_" ++ today ++ "_" ++
          natRepr (maxSuffixIdx (pre ++ "_" ++ today)
            (candidatesOf pre today files) + 1) ++ ".pdf")
          (pre ++ "_" ++ today) = true := by
        rw [hshape]
        exact pyStartsWith_append _ _
      have h2 : pyEndsWith (pre ++ "_" ++ today ++ "_" ++
          natRepr (maxSuffixIdx (pre ++ "_" ++ today)
            (candidatesOf pre today files) + 1) ++ ".pdf") ".pdf" = true :=
        pyEndsWith_append _ _
      have hcand : (pre ++ "_" ++ today ++ "_" ++
          natRepr (maxSuffixIdx (pre ++ "_" ++ today)
            (candidatesOf pre today files) + 1) ++ ".pdf") ∈
          candidatesOf pre today files := by
        rw [hmemc]
        exact ⟨habs, by rw [h1, h2]; rfl⟩
      have hle := mem_le_foldl_max (suffixIdx (pre ++ "_" ++ today))
        (candidatesOf pre today files) _ hcand 1
      rw [suffixIdx_suffixed] at hle
      unfold maxSuffixIdx at hle
      omega
    · rw [hA h]
      exact h
  · intro hcand
    have hmem : (pre ++ "_" ++ today ++ ".pdf") ∈
        candidatesOf pre today files := by
      rw [hcand]
      exact List.mem_singleton.mpr rfl
    rw [hB (hbase_mem.mp hmem)]
    have hmax : maxSuffixIdx (pre ++ "_" ++ today)
        (candidatesOf pre today files) = 1 := by
      rw [hcand]
      unfold maxSuffixIdx
      simp [suffixIdx_base_pdf]
    rw [hmax]

/-- Witness for C5: one prior same-day unsuffixed artifact
chat_ebook_20251130.pdf; the next name carries suffix exactly 2 and does
not collide. -/
theorem get_dated_pdf_name_correct_witness :
    get_dated_pdf_name "chat_ebook" "20251130"
      ["chat_ebook_20251130.pdf"] = "chat_ebook_20251130_2.pdf" := by
  have h := (get_dated_pdf_name_correct "chat_ebook" "20251130"
    ["chat_ebook_20251130.pdf"]).2.2.2 (by decide)
  have h2 : natRepr 2 = "2" := by decide
  rw [h, h2]
  decide

/-- C10: the pre-rendering content normalization is idempotent: normalizing
an already-normalized string changes nothing; moreover the normalized output
contains no carriage return, no tab character, and no remaining literal
two-character backslash-n, backslash-r or backslash-t escape sequence. -/
theorem normalize_content_idempotent (s : String) :
    normalize_content (normalize_content s) = normalize_content s ∧
    '\r' ∉ (normalize_content s).data ∧
    '\t' ∉ (normalize_content s).data ∧
    NoPair '\\' 'n' (normalize_content s).data ∧
    NoPair '\\' 'r' (normalize_content s).data ∧
    NoPair '\\' 't' (normalize_content s).data := by
  refine ⟨?_, normData_no_cr _, normData_no_tab _, normData_noPair_bn _,
    normData_noPair_br _, normData_noPair_bt _⟩
  show String.mk (normData (String.mk (normData s.data)).data) =
    String.mk (normData s.data)
  rw [show (String.mk (normData s.data)).data = normData s.data from rfl]
  rw [normData_idem]

end ChatTxt2Pdf

namespace ChatTxt2Pdf

/-! ## C2: the three known shapes -/

theorem claudePart_contrib (p : List (String × JVal)) :
    (match jget p "type" with
     | some (.str ty) =>
       if ty = "text" then
         (match jget p "text" with
          | some (.str t) => if pyStrip t = "" then [] else [t]
          | _ => [])
       else if ty = "tool_use" then
         (match (jget p "input").getD (.obj []) with
          | .obj io =>
            (match jget io "prompt" with
             | some (.str pv) =>
               if pyStrip pv = "" then [jdump (.obj io)] else [pv]
             | _ => [jdump (.obj io)])
          | _ => [])
       else []
     | _ => []) =
    (spec_claude_part_text (.obj p)).elim [] (fun t => [t]) := by
  have hred : spec_claude_part_text (.obj p) =
      (match jget p "type" with
       | some (.str ty) =>
         if ty = "text" then
           (match jget p "text" with
            | some (.str t) => if pyStrip t = "" then none else some t
            | _ => none)
         else if ty = "tool_use" then
           (match (jget p "input").getD (.obj []) with
            | .obj io =>
              (match jget io "prompt" with
               | some (.str pv) =>
                 if pyStrip pv = "" then some (jdump (.obj io))
                 else some pv
               | _ => some (jdump (.obj io)))
            | _ => none)
         else none
       | _ => none) := rfl
  rw [hred]
  cases jget p "type" with
  | none => rfl
  | some jv =>
    cases jv with
    | str ty =>
      simp only []
      by_cases h1 : ty = "text"
      · rw [if_pos h1, if_pos h1]
        cases jget p "text" with
        | none => rfl
        | some tv =>
          cases tv with
          | str t =>
            simp only []
            by_cases h2 : pyStrip t = ""
            · rw [if_pos h2, if_pos h2]; rfl
            · rw [if_neg h2, if_neg h2]; rfl
          | null => rfl
          | bool b => rfl
          | num n => rfl
          | arr xs => rfl
          | obj fs => rfl
      · rw [if_neg h1, if_neg h1]
        by_cases h2 : ty = "tool_use"
        · rw [if_pos h2, if_pos h2]
          cases (jget p "input").getD (.obj []) with
          | obj io =>
            simp only []
            cases jget io "prompt" with
            | none => rfl
            | some pv =>
              cases pv with
              | str s =>
                simp only []
                by_cases h3 : pyStrip s = ""
                · rw [if_pos h3, if_pos h3]; rfl
                · rw [if_neg h3, if_neg h3]; rfl
              | null => rfl
              | bool b => rfl
              | num n => rfl
              | arr xs => rfl
              | obj fs => rfl
          | null => rfl
          | bool b => rfl
          | num n => rfl
          | str s => rfl
          | arr xs => rfl
        · rw [if_neg h2, if_neg h2]; rfl
    | null => rfl
    | bool b => rfl
    | num n => rfl
    | arr xs => rfl
    | obj fs => rfl

theorem claudeParts_eq_spec (ps : List JVal) :
    claudeParts ps = ps.filterMap spec_claude_part_text := by
  induction ps with
  | nil => rfl
  | cons part rest ih =>
    cases part with
    | obj p =>
      simp only [claudeParts]
      rw [claudePart_contrib p, ih, List.filterMap_cons]
      cases spec_claude_part_text (.obj p) with
      | none => rfl
      | some t => rfl
    | null => simp only [claudeParts]; rw [ih, List.filterMap_cons]; rfl
    | bool b => simp only [claudeParts]; rw [ih, List.filterMap_cons]; rfl
    | num n => simp only [claudeParts]; rw [ih, List.filterMap_cons]; rfl
    | str s => simp only [claudeParts]; rw [ih, List.filterMap_cons]; rfl
    | arr xs => simp only [claudeParts]; rw [ih, List.filterMap_cons]; rfl

theorem extract_from_claude_message_eq (m : List (String × JVal)) :
    extract_from_claude_message m = (jget m "role", spec_claude_text m) := by
  unfold extract_from_claude_message spec_claude_text
  cases jget m "content" with
  | none => rfl
  | some cv =>
    cases cv with
    | str c =>
      simp only []
      by_cases h : pyStrip c = ""
      · rw [if_pos h, if_pos h] ; try rfl
      · rw [if_neg h, if_neg h] ; try rfl
    | arr parts =>
      simp only []
      rw [claudeParts_eq_spec]
      cases hfm : parts.filterMap spec_claude_part_text with
      | nil => rfl
      | cons t ts => rfl
    | null => rfl
    | bool b => rfl
    | num n => rfl
    | obj fs => rfl

theorem geminiParts_eq_spec (ps : List JVal) :
    geminiParts ps = ps.filterMap (fun p =>
      match p with
      | .obj pf =>
        (match jget pf "text" with
         | some (.str t) => if pyStrip t = "" then none else some t
         | _ => none)
      | _ => none) := by
  induction ps with
  | nil => rfl
  | cons part rest ih =>
    cases part with
    | obj pf =>
      simp only [geminiParts]
      rw [ih, List.filterMap_cons]
      simp only []
      cases jget pf "text" with
      | none => rfl
      | some tv =>
        cases tv with
        | str t =>
          simp only []
          by_cases h : pyStrip t = ""
          · rw [if_pos h, if_pos h] ; try rfl
          · rw [if_neg h, if_neg h] ; try rfl
        | null => rfl
        | bool b => rfl
        | num n => rfl
        | arr xs => rfl
        | obj fs => rfl
    | null => simp only [geminiParts]; rw [ih, List.filterMap_cons]
    | bool b => simp only [geminiParts]; rw [ih, List.filterMap_cons]
    | num n => simp only [geminiParts]; rw [ih, List.filterMap_cons]
    | str s => simp only [geminiParts]; rw [ih, List.filterMap_cons]
    | arr xs => simp only [geminiParts]; rw [ih, List.filterMap_cons]

theorem extract_from_gemini_message_eq (o : List (String × JVal)) :
    extract_from_gemini_message o = (jget o "role", spec_gemini_text o) := by
  unfold extract_from_gemini_message spec_gemini_text
  cases jget o "parts" with
  | none => rfl
  | some pv =>
    cases pv with
    | arr ps =>
      simp only []
      rw [geminiParts_eq_spec]
      cases hfm : ps.filterMap (fun p =>
        match p with
        | .obj pf =>
          (match jget pf "text" with
           | some (.str t) => if pyStrip t = "" then none else some t
           | _ => none)
        | _ => none) with
      | nil => rfl
      | cons t ts => rfl
    | null => rfl
    | bool b => rfl
    | num n => rfl
    | str s => rfl
    | obj fs => rfl

theorem extract_text_falls (o : List (String × JVal))
    (hclaude : ∀ m, jget o "message" = some (.obj m) →
      pyStrip (spec_claude_text m) = "") :
    extract_text o = extract_gemini_step o := by
  unfold extract_text
  cases hm : jget o "message" with
  | none => rfl
  | some jv =>
    cases jv with
    | obj m =>
      simp only []
      rw [extract_from_claude_message_eq m]
      show (if pyStrip (spec_claude_text m) = "" then extract_gemini_step o
        else (jget m "role", spec_claude_text m)) = extract_gemini_step o
      rw [if_pos (hclaude m hm)]
    | null => rfl
    | bool b => rfl
    | num n => rfl
    | str s => rfl
    | arr xs => rfl

/-- The Gemini step falls through to the flat shapes whenever the parts
shape yields blank text (including when its guard fails). -/
theorem gemini_step_falls (o : List (String × JVal))
    (hg : pyStrip (spec_gemini_text o) = "") :
    extract_gemini_step o = extract_codex o := by
  unfold extract_gemini_step
  cases hp : jget o "parts" with
  | none => rfl
  | some pv =>
    cases pv with
    | arr ps =>
      cases hr : jget o "role" with
      | none => rfl
      | some rv =>
        simp only []
        rw [extract_from_gemini_message_eq o]
        show (if pyStrip (spec_gemini_text o) = "" then extract_codex o
          else (jget o "role", spec_gemini_text o)) = extract_codex o
        rw [if_pos hg]
    | null => rfl
    | bool b => rfl
    | num n => rfl
    | str s => rfl
    | obj fs => rfl

/-- C2: each of the three known shapes with non-empty text is extracted to
exactly its role and its text (parts joined by a blank line), the shapes
being tried in the fixed priority order with the first non-blank text
winning: the nested message shape wins outright; the flat role/parts shape
wins once the nested shape yields blank text; the flat role plus
content-or-text string shape applies once both earlier shapes yield blank
text. -/
theorem extract_text_known_shapes :
    (∀ o m : List (String × JVal), jget o "message" = some (.obj m) →
      pyStrip (spec_claude_text m) ≠ "" →
      extract_text o = (jget m "role", spec_claude_text m)) ∧
    (∀ (o : List (String × JVal)) (ps : List JVal),
      (∀ m, jget o "message" = some (.obj m) →
        pyStrip (spec_claude_text m) = "") →
      jget o "parts" = some (.arr ps) → (jget o "role").isSome →
      pyStrip (spec_gemini_text o) ≠ "" →
      extract_text o = (jget o "role", spec_gemini_text o)) ∧
    (∀ (o : List (String × JVal)) (v : String),
      (∀ m, jget o "message" = some (.obj m) →
        pyStrip (spec_claude_text m) = "") →
      pyStrip (spec_gemini_text o) = "" →
      (strAt o "content" <|> strAt o "text") = some v →
      extract_text o = (jget o "role", v)) := by
  refine ⟨?_, ?_, ?_⟩
  · intro o m hm hne
    unfold extract_text
    rw [hm]
    simp only []
    rw [extract_from_claude_message_eq m]
    show (if pyStrip (spec_claude_text m) = "" then extract_gemini_step o
      else (jget m "role", spec_claude_text m)) =
      (jget m "role", spec_claude_text m)
    rw [if_neg hne]
  · intro o ps hclaude hp hr hne
    rw [extract_text_falls o hclaude]
    unfold extract_gemini_step
    rw [hp]
    cases hrv : jget o "role" with
    | none =>
      rw [hrv] at hr
      cases hr
    | some rv =>
      simp only []
      rw [extract_from_gemini_message_eq o, hrv]
      show (if pyStrip (spec_gemini_text o) = "" then extract_codex o
        else (some rv, spec_gemini_text o)) = (some rv, spec_gemini_text o)
      rw [if_neg hne]
  · intro o v hclaude hg hflat
    rw [extract_text_falls o hclaude, gemini_step_falls o hg]
    unfold extract_codex
    rw [hflat]

/-- Witness for C2: one concrete record per shape. -/
theorem extract_text_known_shapes_witness :
    extract_text [("message", JVal.obj
      [("role", JVal.str "user"), ("content", JVal.str "hi")])] =
      (some (JVal.str "user"), "hi") ∧
    extract_text [("role", JVal.str "user"), ("parts", JVal.arr
      [JVal.obj [("text", JVal.str "p1")],
       JVal.obj [("text", JVal.str "p2")]])] =
      (some (JVal.str "user"), "p1\n\np2") ∧
    extract_text [("role", JVal.str "user"),
      ("content", JVal.str "Hello\nworld")] =
      (some (JVal.str "user"), "Hello\nworld") := by
  refine ⟨?_, ?_, ?_⟩
  · exact extract_text_known_shapes.1
      [("message", JVal.obj
        [("role", JVal.str "user"), ("content", JVal.str "hi")])]
      [("role", JVal.str "user"), ("content", JVal.str "hi")]
      rfl (by decide)
  · exact extract_text_known_shapes.2.1
      [("role", JVal.str "user"), ("parts", JVal.arr
        [JVal.obj [("text", JVal.str "p1")],
         JVal.obj [("text", JVal.str "p2")]])]
      [JVal.obj [("text", JVal.str "p1")],
       JVal.obj [("text", JVal.str "p2")]]
      (fun m hm => Option.noConfusion hm) rfl rfl (by decide)
  · exact extract_text_known_shapes.2.2
      [("role", JVal.str "user"), ("content", JVal.str "Hello\nworld")]
      "Hello\nworld"
      (fun m hm => Option.noConfusion hm) rfl rfl

end ChatTxt2Pdf

namespace ChatTxt2Pdf

/-! ## C4: unrecognized shapes -/

/-- C4 counterexample: the record with only a role key matches none of the
known shapes, yet extract returns the role with empty text rather than
(None, "") as claimed. -/
theorem extract_unrecognized_counterexample :
    extract_text [("role", JVal.str "user")] =
      (some (JVal.str "user"), "") ∧
    extract_text [("role", JVal.str "user")] ≠ ((none : Option JVal), "") := by
  refine ⟨rfl, ?_⟩
  intro h
  have h1 : (some (JVal.str "user") : Option JVal) = none :=
    congrArg Prod.fst h
  cases h1

/-- C4 (amended): for every record that yields text through none of the
known shapes (nested message blank, parts shape blank, no flat
content/text string, no payload text or output), extract returns exactly
the record's role value — None when no role key is present — paired with
the empty text, and (being a total function) never raises. -/
theorem extract_unrecognized_returns_role_empty (o : List (String × JVal))
    (hmsg : ∀ m, jget o "message" = some (.obj m) →
      pyStrip (spec_claude_text m) = "")
    (hparts : pyStrip (spec_gemini_text o) = "")
    (hflat : (strAt o "content" <|> strAt o "text") = none)
    (hpayload : ∀ pl, jget o "payload" = some (.obj pl) →
      (strAt pl "content" <|> strAt pl "text" <|> strAt pl "message") = none ∧
      strAt pl "output" = none) :
    extract_text o = (jget o "role", "") := by
  rw [extract_text_falls o hmsg, gemini_step_falls o hparts]
  unfold extract_codex
  rw [hflat]
  simp only []
  cases hp : jget o "payload" with
  | none => rfl
  | some jv =>
    cases jv with
    | obj pl =>
      simp only []
      obtain ⟨hc, ho⟩ := hpayload pl hp
      rw [hc]
      simp only []
      rw [ho]
    | null => rfl
    | bool b => rfl
    | num n => rfl
    | str s2 => rfl
    | arr xs => rfl

/-- Witness for the amended C4: a record with no recognizable key at all
extracts to (None, ""). -/
theorem extract_unrecognized_witness :
    extract_text [("foo", JVal.num 1)] = (none, "") :=
  extract_unrecognized_returns_role_empty [("foo", JVal.num 1)]
    (fun _ hm => Option.noConfusion hm) rfl rfl
    (fun _ hp => Option.noConfusion hp)

/-! ## C8: the nested-payload resolver -/

/-- C8: try_parse_nested_json returns the first of output, content, text,
message whose value is a non-blank string when its input parses to a
mapping with such a key, and returns the input unchanged in every other
case (parse failure, non-mapping document, or no matching key); being
total it never raises.  The last conjunct is the spec scenario: the
wrapped-payload record whose output field is itself serialized JSON
resolves to the inner text. -/
theorem try_parse_nested_json_correct :
    (∀ (s : String) (fields : List (String × JVal)) (v : String),
      loads s = some (JVal.obj fields) →
      (strAt fields "output" <|> strAt fields "content" <|>
        strAt fields "text" <|> strAt fields "message") = some v →
      try_parse_nested_json s = v) ∧
    (∀ (s : String) (fields : List (String × JVal)),
      loads s = some (JVal.obj fields) →
      (strAt fields "output" <|> strAt fields "content" <|>
        strAt fields "text" <|> strAt fields "message") = none →
      try_parse_nested_json s = s) ∧
    (∀ s : String, (∀ fields, loads s ≠ some (JVal.obj fields)) →
      try_parse_nested_json s = s) ∧
    extract_text [("payload", JVal.obj [("output",
      JVal.str "\x7b\"output\":\"Date: X\"\x7d")])] =
      (none, "Date: X") := by
  refine ⟨?_, ?_, ?_, rfl⟩
  · intro s fields v hl hf
    unfold try_parse_nested_json
    rw [hl]
    simp only []
    rw [hf]
  · intro s fields hl hf
    unfold try_parse_nested_json
    rw [hl]
    simp only []
    rw [hf]
  · intro s h
    unfold try_parse_nested_json
    cases hl : loads s with
    | none => rfl
    | some jv =>
      cases jv with
      | obj fields => exact absurd hl (h fields)
      | null => rfl
      | bool b => rfl
      | num n => rfl
      | str s2 => rfl
      | arr xs => rfl

/-- Witness for C8: the spec scenario string resolves to "Date: X". -/
theorem try_parse_nested_json_correct_witness :
    try_parse_nested_json "\x7b\"output\":\"Date: X\"\x7d" = "Date: X" :=
  try_parse_nested_json_correct.1 "\x7b\"output\":\"Date: X\"\x7d"
    [("output", JVal.str "Date: X")] "Date: X" rfl rfl

/-! ## C6: unparseable files never abort the batch -/

/-- C6: a single-document file whose content does not parse yields no
messages and no output artifact at all (process_json_file returns before
writing); a line-delimited file all of whose (stripped) lines fail to parse
yields zero messages, and the artifact then written is the rendering of the
empty message list, the empty string — no partial artifact; both functions
are total, so no error reaches the batch driver. -/
theorem unparseable_input_skipped :
    (∀ content, loads content = none → process_json_file content = none) ∧
    (∀ lines : List String, (∀ l ∈ lines, loads (pyStrip l) = none) →
      process_jsonl_file lines = some []) ∧
    write_messages_to_txt [] = some "" := by
  refine ⟨?_, ?_, rfl⟩
  · intro content h
    unfold process_json_file
    rw [h]
  · intro lines h
    induction lines with
    | nil => rfl
    | cons line rest ih =>
      have hrec := ih (fun l hl => h l (List.mem_cons_of_mem _ hl))
      simp only [process_jsonl_file]
      by_cases hb : pyStrip line = ""
      · rw [if_pos hb]
        exact hrec
      · rw [if_neg hb, h line (List.mem_cons_self _ _)]
        exact hrec

/-- Witness for C6: a truncated JSON document and a jsonl file of blank and
malformed lines. -/
theorem unparseable_input_skipped_witness :
    process_json_file "\x7b" = none ∧
    process_jsonl_file ["\x7b", "", "not json"] = some [] := by
  constructor
  · exact unparseable_input_skipped.1 "\x7b" rfl
  · refine unparseable_input_skipped.2.1 ["\x7b", "", "not json"] ?_
    intro l hl
    fin_cases hl <;> rfl

end ChatTxt2Pdf

namespace ChatTxt2Pdf

/-! ## C7: the rendered artifact format -/

theorem renderBody_eq (msgs : List (Option JVal × String))
    (hrole : ∀ m ∈ msgs, m.1 = none ∨ ∃ r, m.1 = some (JVal.str r)) :
    renderBody msgs = some (spec_body msgs) := by
  induction msgs with
  | nil => rfl
  | cons m rest ih =>
    obtain ⟨role, text⟩ := m
    have hrest := ih (fun x hx => hrole x (List.mem_cons_of_mem _ hx))
    have hblock : renderBlock role text = some (spec_block (role, text)) := by
      rcases hrole (role, text) (List.mem_cons_self _ _) with hnone | ⟨r, hr⟩
      · simp only at hnone
        rw [hnone]
        rfl
      · simp only at hr
        rw [hr]
        unfold renderBlock spec_block
        simp only []
        by_cases hr0 : r = ""
        · rw [if_pos hr0, if_pos hr0]
        · rw [if_neg hr0, if_neg hr0]
    simp only [renderBody]
    rw [hrest, hblock]
    rfl

theorem dropWhile_head_false (p : Char → Bool) :
    ∀ (l : List Char) (c : Char) (rest : List Char),
      l.dropWhile p = c :: rest → p c = false := by
  intro l
  induction l with
  | nil => intro c rest h; cases h
  | cons a as ih =>
    intro c rest h
    rw [List.dropWhile_cons] at h
    by_cases hp : p a
    · rw [if_pos hp] at h
      exact ih c rest h
    · rw [if_neg hp] at h
      injection h with h1 _
      subst h1
      exact eq_false_of_ne_true hp

theorem pyStripL_head (l : List Char) (c : Char) (rest : List Char)
    (h : pyStripL l = c :: rest) : isPySpace c = false := by
  unfold pyStripL at h
  obtain ⟨t, ht⟩ :=
    List.dropWhile_suffix (l := (l.dropWhile isPySpace).reverse)
      (p := isPySpace)
  have hm2 : l.dropWhile isPySpace =
      ((l.dropWhile isPySpace).reverse.dropWhile isPySpace).reverse ++
        t.reverse := by
    have hr := congrArg List.reverse ht
    simp only [List.reverse_append, List.reverse_reverse] at hr
    exact hr.symm
  rw [h] at hm2
  exact dropWhile_head_false isPySpace l c (rest ++ t.reverse)
    (by rw [hm2]; rfl)

theorem pyStrip_ne_empty_data (t : String) (h : pyStrip t ≠ "") :
    pyStripL t.data ≠ [] := by
  intro habs
  apply h
  show String.mk (pyStripL t.data) = ""
  rw [habs]

theorem firstLine_pyStrip_ne (t : String) (h : pyStrip t ≠ "") :
    firstLine (pyStrip t) ≠ "" := by
  have hd := pyStrip_ne_empty_data t h
  cases hl : pyStripL t.data with
  | nil => exact absurd hl hd
  | cons c rest =>
    have hc := pyStripL_head t.data c rest hl
    have hcn : c ≠ '\n' := by
      intro hceq
      rw [hceq] at hc
      exact absurd hc (by decide)
    intro habs
    have : (firstLine (pyStrip t)).data = [] := by rw [habs]
    rw [show (firstLine (pyStrip t)).data =
      (pyStripL t.data).takeWhile (fun c => c ≠ '\n') from rfl, hl] at this
    rw [List.takeWhile_cons, if_pos (by simpa using hcn)] at this
    cases this

theorem spec_ufl_cons (m : Option JVal × String)
    (rest : List (Option JVal × String)) :
    spec_user_first_lines (m :: rest) =
      (if isUserRole m.1 = true then [firstLine (pyStrip m.2)] else []) ++
        spec_user_first_lines rest := by
  unfold spec_user_first_lines
  rw [List.filter_cons]
  by_cases hu : isUserRole m.1 = true
  · rw [if_pos hu, if_pos hu, List.map_cons]
    rfl
  · rw [if_neg hu, if_neg hu]
    rfl

theorem questionsOf_eq (msgs : List (Option JVal × String))
    (htext : ∀ m ∈ msgs, pyStrip m.2 ≠ "") :
    questionsOf msgs = spec_user_first_lines msgs := by
  induction msgs with
  | nil => rfl
  | cons m rest ih =>
    have hr := ih (fun x hx => htext x (List.mem_cons_of_mem _ hx))
    have hstep : questionsOf (m :: rest) =
        (if isUserRole m.1 = true then
          (if firstLine (pyStrip m.2) = "" then []
           else [firstLine (pyStrip m.2)]) else []) ++ questionsOf rest := rfl
    rw [hstep, hr, spec_ufl_cons]
    by_cases hu : isUserRole m.1 = true
    · rw [if_pos hu, if_pos hu,
        if_neg (firstLine_pyStrip_ne m.2 (htext m (List.mem_cons_self _ _)))]
    · rw [if_neg hu, if_neg hu]

theorem spec_user_first_lines_eq_nil_iff (msgs : List (Option JVal × String)) :
    spec_user_first_lines msgs = [] ↔
      msgs.any (fun m => isUserRole m.1) = false := by
  unfold spec_user_first_lines
  rw [List.map_eq_nil, List.filter_eq_nil, List.any_eq_false]

/-- C7: under the pipeline invariant that every aggregated message has
non-blank text and an optional-string speaker, the rendered artifact is
exactly: the Question Index block (start marker line, the lines i. first
line of each user message numbered from 1, end marker line, two blank
lines) emitted if and only if a user-speaker message exists, followed by
the block SPEAKER:\n text \n\n for each message with a speaker (upper-cased)
or text \n\n without one. -/
theorem render_format (msgs : List (Option JVal × String))
    (hrole : ∀ m ∈ msgs, m.1 = none ∨ ∃ r, m.1 = some (JVal.str r))
    (htext : ∀ m ∈ msgs, pyStrip m.2 ≠ "") :
    write_messages_to_txt msgs = some (spec_render msgs) := by
  unfold write_messages_to_txt
  rw [renderBody_eq msgs hrole]
  simp only []
  rw [questionsOf_eq msgs htext]
  unfold spec_render
  by_cases hq : spec_user_first_lines msgs = []
  · rw [if_pos hq,
      if_neg (by rw [Bool.not_eq_true,
        ← spec_user_first_lines_eq_nil_iff msgs]; exact hq)]
    rfl
  · rw [if_neg hq,
      if_pos (by
        cases hx : msgs.any (fun m => isUserRole m.1) with
        | false =>
          exact absurd ((spec_user_first_lines_eq_nil_iff msgs).mpr hx) hq
        | true => rfl)]

/-- Witness for C7: a user message and a speakerless message render to the
exact index-plus-blocks text. -/
theorem render_format_witness :
    write_messages_to_txt [(some (JVal.str "user"), "hi"), (none, "x")] =
      some ("============ 问题索引（User Questions） ============\n1. hi\n==========================\x3d=========================\n\n\nUSER:\nhi\n\nx\n\n") := by
  have h := render_format [(some (JVal.str "user"), "hi"), (none, "x")]
    (by
      intro m hm
      fin_cases hm
      · exact Or.inr ⟨"user", rfl⟩
      · exact Or.inl rfl)
    (by intro m hm; fin_cases hm <;> decide)
  rw [h]
  rfl

end ChatTxt2Pdf

namespace ChatTxt2Pdf

/-! ## C3: round-trip of the Question Index -/

theorem not_break_of_digit (c : Char) (h : c.isDigit = true) :
    isLineBreakChar c = false := by
  have hd : ('0' ≤ c && c ≤ '9') = true := h
  rw [Bool.and_eq_true, decide_eq_true_eq, decide_eq_true_eq] at hd
  by_contra hb
  rw [Bool.not_eq_false] at hb
  unfold isLineBreakChar at hb
  simp only [Bool.or_eq_true, decide_eq_true_eq] at hb
  rcases hb with (((((((((rfl | rfl) | rfl) | rfl) | rfl) | rfl) | rfl) | rfl) | rfl) | rfl) <;>
    exact absurd hd (by decide)

theorem not_pyspace_of_digit (c : Char) (h : c.isDigit = true) :
    isPySpace c = false := by
  have hd : ('0' ≤ c && c ≤ '9') = true := h
  rw [Bool.and_eq_true, decide_eq_true_eq, decide_eq_true_eq] at hd
  by_contra hb
  rw [Bool.not_eq_false] at hb
  unfold isPySpace at hb
  simp only [Bool.or_eq_true, Bool.and_eq_true, decide_eq_true_eq] at hb
  rcases hb with ((((((((((((((((((rfl | rfl) | rfl) | rfl) | rfl) | rfl) | rfl) | rfl) | rfl) | rfl) | rfl) | rfl) | rfl) | ⟨h1, h2⟩) | rfl) | rfl) | rfl) | rfl) | rfl)
  all_goals first
    | exact absurd hd (by decide)
    | exact absurd (le_trans h1 hd.2) (by decide)

theorem digit_ne_eqsign (c : Char) (h : c.isDigit = true) : c ≠ '=' := by
  intro hc
  rw [hc] at h
  exact absurd h (by decide)

theorem natDigits_head (n : Nat) :
    ∃ d ds, natDigits n = d :: ds ∧ d.isDigit = true := by
  cases hnd : natDigits n with
  | nil => exact absurd hnd (natDigits_ne_nil n)
  | cons d ds =>
    refine ⟨d, ds, rfl, ?_⟩
    have := natDigits_all_digit n d
    rw [hnd] at this
    exact this (List.mem_cons_self _ _)

theorem splitlinesAux_cons_nr (acc rest : List Char) (c : Char)
    (hcr : c ≠ '\r') :
    splitlinesAux acc (c :: rest) =
      if isLineBreakChar c then acc.reverse :: splitlinesAux [] rest
      else splitlinesAux (c :: acc) rest := by
  cases rest with
  | nil => rw [splitlinesAux.eq_2, if_neg hcr]
  | cons d rest2 => rw [splitlinesAux.eq_3, if_neg hcr]

theorem splitlinesAux_line (l : List Char)
    (hl : ∀ c ∈ l, isLineBreakChar c = false) :
    ∀ (acc rest : List Char),
      splitlinesAux acc (l ++ '\n' :: rest) =
        (acc.reverse ++ l) :: splitlinesAux [] rest := by
  induction l with
  | nil =>
    intro acc rest
    rw [List.nil_append, splitlinesAux_cons_nr acc rest '\n' (by decide),
      if_pos (by decide)]
    simp
  | cons c l' ih =>
    intro acc rest
    have hc := hl c (List.mem_cons_self _ _)
    have hcr : c ≠ '\r' := by
      intro h
      rw [h] at hc
      exact absurd hc (by decide)
    rw [List.cons_append, splitlinesAux_cons_nr acc (l' ++ '\n' :: rest) c hcr,
      if_neg (by simp [hc])]
    rw [ih (fun x hx => hl x (List.mem_cons_of_mem _ hx)) (c :: acc) rest]
    simp

theorem takeWhile_append_not (p : Char → Bool) (A : List Char) (x : Char)
    (B : List Char) (hA : ∀ c ∈ A, p c = true) (hx : p x = false) :
    (A ++ x :: B).takeWhile p = A := by
  induction A with
  | nil =>
    rw [List.nil_append, List.takeWhile_cons, if_neg (by simp [hx])]
  | cons a as ih =>
    rw [List.cons_append, List.takeWhile_cons,
      if_pos (hA a (List.mem_cons_self _ _)),
      ih (fun c hc => hA c (List.mem_cons_of_mem _ hc))]

theorem dropWhile_cons_not (p : Char → Bool) (x : Char) (xs : List Char)
    (hx : p x = false) : (x :: xs).dropWhile p = x :: xs := by
  rw [List.dropWhile_cons, if_neg (by simp [hx])]

theorem dropWhile_all_digits (A X : List Char)
    (hA : ∀ c ∈ A, c.isDigit = true) (h0 : A ≠ []) :
    (A ++ X).dropWhile isPySpace = A ++ X := by
  cases A with
  | nil => exact absurd rfl h0
  | cons d ds =>
    rw [List.cons_append]
    exact dropWhile_cons_not _ _ _
      (not_pyspace_of_digit d (hA d (List.mem_cons_self _ _)))

theorem dropWhile_eq_self_of_stripped (l : List Char)
    (h : pyStripL l = l) : l.dropWhile isPySpace = l := by
  have hsfx := List.dropWhile_suffix (l := l) (p := isPySpace)
  apply List.IsSuffix.eq_of_length hsfx
  have hlen := congrArg List.length h
  unfold pyStripL at hlen
  rw [List.length_reverse] at hlen
  have h1 := (List.dropWhile_suffix
    (l := (l.dropWhile isPySpace).reverse) (p := isPySpace)).length_le
  rw [List.length_reverse] at h1
  have h2 := (List.dropWhile_suffix (l := l) (p := isPySpace)).length_le
  omega

theorem numline_data (i : Nat) (q : String) :
    (natRepr i ++ ". " ++ q).data = natDigits i ++ '.' :: ' ' :: q.data := by
  rw [String.data_append, String.data_append, List.append_assoc]
  rfl

theorem parseQLine_numbered (i : Nat) (q : String)
    (hq0 : q ≠ "") (hqs : pyStrip q = q) :
    parseQLine (natRepr i ++ ". " ++ q) = some q := by
  unfold parseQLine
  rw [numline_data]
  rw [dropWhile_all_digits (natDigits i) _ (natDigits_all_digit i)
    (natDigits_ne_nil i)]
  rw [takeWhile_append_not Char.isDigit (natDigits i) '.' (' ' :: q.data)
    (natDigits_all_digit i) (by decide)]
  obtain ⟨d, ds, hnd, hdig⟩ := natDigits_head i
  rw [hnd]
  simp only []
  rw [List.drop_left]
  simp only []
  rw [List.dropWhile_cons, if_pos (by decide)]
  have hqd : pyStripL q.data = q.data := congrArg String.data hqs
  rw [dropWhile_eq_self_of_stripped q.data hqd]
  cases hdq : q.data with
  | nil =>
    have hq1 : q = "" := by
      have h1 : q = String.mk q.data := rfl
      rw [hdq] at h1
      exact h1
    exact absurd hq1 hq0
  | cons c cs =>
    simp only []
    have hmk : String.mk (c :: cs) = q := by
      rw [← hdq]
    rw [hmk, hqs, if_neg hq0]

theorem hasLead_cons_ne (a b : Char) (as bs : List Char) (hne : b ≠ a) :
    hasLead (a :: as) (b :: bs) = false := by
  simp [hasLead]
  intro h
  exact absurd h.symm hne

theorem numline_not_marker (i : Nat) (q : String) (pre : String)
    (hpre : ∃ pr, pre.data = '=' :: pr) :
    pyStartsWith (natRepr i ++ ". " ++ q) pre = false := by
  obtain ⟨pr, hpr⟩ := hpre
  unfold pyStartsWith
  rw [numline_data, hpr]
  obtain ⟨d, ds, hnd, hdig⟩ := natDigits_head i
  rw [hnd, List.cons_append]
  exact hasLead_cons_ne '=' d _ _ (digit_ne_eqsign d hdig)

theorem qLines_cons (i : Nat) (q : String) (qs : List String) :
    qLines i (q :: qs) = (natRepr i ++ ". " ++ q) :: qLines (i + 1) qs := by
  rw [qLines]

theorem numberedConcat_cons (i : Nat) (q : String) (qs : List String) :
    numberedConcat i (q :: qs) =
      natRepr i ++ ". " ++ q ++ "\n" ++ numberedConcat (i + 1) qs := by
  rw [numberedConcat]

theorem mem_ufl_ne_empty (msgs : List (Option JVal × String))
    (htext : ∀ m ∈ msgs, pyStrip m.2 ≠ "") :
    ∀ q ∈ spec_user_first_lines msgs, q ≠ "" := by
  intro q hq
  unfold spec_user_first_lines at hq
  rw [List.mem_map] at hq
  obtain ⟨m, hm, rfl⟩ := hq
  exact firstLine_pyStrip_ne m.2 (htext m (List.mem_filter.mp hm).1)

theorem map_mk_data (l : List String) :
    (l.map String.data).map String.mk = l := by
  induction l with
  | nil => rfl
  | cons a as ih => rw [List.map_cons, List.map_cons, ih]

theorem splitlines_index (qs : List String)
    (hqs : ∀ q ∈ qs, ∀ c ∈ q.data, isLineBreakChar c = false) :
    ∀ (i : Nat) (tail : List Char),
      splitlinesAux [] ((numberedConcat i qs).data ++ tail) =
        (qLines i qs).map String.data ++ splitlinesAux [] tail := by
  induction qs with
  | nil => intro i tail; rfl
  | cons q qs' ih =>
    intro i tail
    have hline : ∀ c ∈ (natRepr i ++ ". " ++ q).data,
        isLineBreakChar c = false := by
      intro c hc
      rw [numline_data] at hc
      rcases List.mem_append.mp hc with hd | ht
      · exact not_break_of_digit c (natDigits_all_digit i c hd)
      · rcases List.mem_cons.mp ht with rfl | ht2
        · decide
        · rcases List.mem_cons.mp ht2 with rfl | ht3
          · decide
          · exact hqs q (List.mem_cons_self _ _) c ht3
    have hd2 : (numberedConcat i (q :: qs')).data ++ tail =
        (natRepr i ++ ". " ++ q).data ++
          '\n' :: ((numberedConcat (i + 1) qs').data ++ tail) := by
      rw [numberedConcat_cons]
      simp only [String.data_append]
      simp [List.append_assoc]
    rw [hd2, splitlinesAux_line _ hline [] _,
      ih (fun x hx => hqs x (List.mem_cons_of_mem _ hx)) (i + 1) tail,
      qLines_cons]
    simp

theorem splitlines_render (qs : List String) (body : String)
    (hqs : ∀ q ∈ qs, ∀ c ∈ q.data, isLineBreakChar c = false) :
    splitlinesS (qIndexStart ++ "\n" ++ numberedConcat 1 qs ++ qIndexEnd ++
        "\n\n\n" ++ body) =
      qIndexStart :: (qLines 1 qs ++ qIndexEnd :: "" :: "" ::
        splitlinesS body) := by
  unfold splitlinesS
  have hdata : (qIndexStart ++ "\n" ++ numberedConcat 1 qs ++ qIndexEnd ++
      "\n\n\n" ++ body).data =
      qIndexStart.data ++ '\n' :: ((numberedConcat 1 qs).data ++
        (qIndexEnd.data ++ '\n' :: '\n' :: '\n' :: body.data)) := by
    simp only [String.data_append]
    simp [List.append_assoc]
  rw [hdata]
  rw [splitlinesAux_line qIndexStart.data (by decide) [] _]
  rw [splitlines_index qs hqs 1 _]
  rw [splitlinesAux_line qIndexEnd.data (by decide) [] _]
  rw [splitlinesAux_cons_nr [] ('\n' :: body.data) '\n' (by decide),
    if_pos (by decide)]
  rw [splitlinesAux_cons_nr [] body.data '\n' (by decide), if_pos (by decide)]
  simp only [List.reverse_nil, List.nil_append, List.map_cons,
    List.map_append, map_mk_data]

theorem extractQLoop_qlines :
    ∀ (qs : List String), (∀ q ∈ qs, q ≠ "" ∧ pyStrip q = q) →
      ∀ (i : Nat) (rest : List String),
        extractQLoop (qLines i qs ++ qIndexEnd :: rest) true = qs := by
  intro qs
  induction qs with
  | nil =>
    intro _ i rest
    show extractQLoop (qIndexEnd :: rest) true = []
    rw [extractQLoop]
    rw [if_neg (by decide), if_pos (by decide)]
  | cons q qs' ih =>
    intro hq i rest
    rw [qLines_cons, List.cons_append, extractQLoop]
    rw [if_neg (by simp [numline_not_marker i q _ ⟨_, rfl⟩]),
      if_neg (by simp [numline_not_marker i q "===" ⟨_, rfl⟩]),
      if_pos rfl]
    rw [parseQLine_numbered i q (hq q (List.mem_cons_self _ _)).1
      (hq q (List.mem_cons_self _ _)).2]
    show q :: extractQLoop (qLines (i + 1) qs' ++ qIndexEnd :: rest) true =
      q :: qs'
    rw [ih (fun x hx => hq x (List.mem_cons_of_mem _ hx)) (i + 1) rest]

theorem extractQLoop_no_marker (ls : List String)
    (h : ∀ l ∈ ls, pyStartsWith l "============ 问题索引" = false) :
    extractQLoop ls false = [] := by
  induction ls with
  | nil => rfl
  | cons l ls' ih =>
    rw [extractQLoop]
    rw [if_neg (by simp [h l (List.mem_cons_self _ _)]),
      if_neg (by simp), if_neg (by simp)]
    exact ih (fun x hx => h x (List.mem_cons_of_mem _ hx))

/-- C3 counterexample: a user message whose first line carries a trailing
space renders to an index line 1. a(space), but the extractor strips the
captured question, so the recovered list is a, not the first line a(space)
of the trimmed text. -/
theorem roundtrip_questions_counterexample :
    write_messages_to_txt [(some (JVal.str "user"), "a \nb")] =
      some ("============ 问题索引（User Questions） ============\n1. a \n==========================\x3d=========================\n\n\nUSER:\na \nb\n\n") ∧
    extract_questions_from_txt "============ 问题索引（User Questions） ============\n1. a \n==========================\x3d=========================\n\n\nUSER:\na \nb\n\n" = ["a"] ∧
    spec_user_first_lines [(some (JVal.str "user"), "a \nb")] = ["a "] ∧
    (["a"] : List String) ≠ ["a "] := by
  exact ⟨rfl, rfl, rfl, by decide⟩

/-- C3 (corrected): rendering a message sequence with the text renderer and
re-parsing the Question Index out of the rendered text with the index
extractor recovers exactly the first line of the trimmed text of every
user-speaker message, in order, provided every message has an
optional-string speaker and non-blank trimmed text, every such first line
is stable under stripping and free of line-break-class characters, and,
when no user message exists, no line of the rendered body begins with the
short index start marker.  Without the stability hypothesis the claim is
false: the extractor strips each captured question, so a first line with
leading or trailing whitespace is not recovered verbatim. -/
theorem roundtrip_questions (msgs : List (Option JVal × String))
    (hrole : ∀ m ∈ msgs, m.1 = none ∨ ∃ r, m.1 = some (JVal.str r))
    (htext : ∀ m ∈ msgs, pyStrip m.2 ≠ "")
    (hclean : ∀ q ∈ spec_user_first_lines msgs,
      pyStrip q = q ∧ ∀ c ∈ q.data, isLineBreakChar c = false)
    (hmark : spec_user_first_lines msgs = [] →
      ∀ l ∈ splitlinesS (spec_body msgs),
        pyStartsWith l "============ 问题索引" = false) :
    ∃ out, write_messages_to_txt msgs = some out ∧
      extract_questions_from_txt out = spec_user_first_lines msgs := by
  refine ⟨spec_render msgs, render_format msgs hrole htext, ?_⟩
  unfold extract_questions_from_txt spec_render
  by_cases hq : spec_user_first_lines msgs = []
  · have hany := (spec_user_first_lines_eq_nil_iff msgs).mp hq
    rw [if_neg (by simp [hany]), hq]
    have h0 : ("" : String) ++ spec_body msgs = spec_body msgs := rfl
    rw [h0]
    exact extractQLoop_no_marker _ (hmark hq)
  · have hany : msgs.any (fun m => isUserRole m.1) = true := by
      cases hx : msgs.any (fun m => isUserRole m.1) with
      | false => exact absurd ((spec_user_first_lines_eq_nil_iff msgs).mpr hx) hq
      | true => rfl
    rw [if_pos hany]
    rw [splitlines_render (spec_user_first_lines msgs) (spec_body msgs)
      (fun x hx => (hclean x hx).2)]
    rw [extractQLoop, if_pos (by decide)]
    exact extractQLoop_qlines (spec_user_first_lines msgs)
      (fun x hx => ⟨mem_ufl_ne_empty msgs htext x hx, (hclean x hx).1⟩) 1 _

/-- Witness for the corrected C3: a single clean user message round-trips
to its first line. -/
theorem roundtrip_questions_witness :
    ∃ out,
      write_messages_to_txt [(some (JVal.str "user"), "hello\nworld")] =
        some out ∧
      extract_questions_from_txt out =
        spec_user_first_lines [(some (JVal.str "user"), "hello\nworld")] := by
  exact roundtrip_questions [(some (JVal.str "user"), "hello\nworld")]
    (by intro m hm; fin_cases hm; exact Or.inr ⟨"user", rfl⟩)
    (by intro m hm; fin_cases hm; decide)
    (by intro q hqm; fin_cases hqm; exact ⟨by decide, by decide⟩)
    (fun h => absurd h (by decide))

end ChatTxt2Pdf
